import Mathlib

/-!
Verification development for the contract-reviewer analysis pipeline
(`src/app/api/analyze/route.ts`).

Texts are modelled as `List Char` (the source operates on JavaScript
strings; all inputs considered here are ASCII, where the two coincide
position by position).  Model calls to the external text-generation
service, the database and the session layer are external I/O; they are
modelled by oracle functions supplying the outcome of each call, so the
embedded code is a deterministic function of the input and the oracle.
-/

/-- Characters matched by the JavaScript regex class `\s` (the ASCII part:
space, tab, line feed, vertical tab, form feed, carriage return).  The
source splits paragraphs with `/\n\s*\n/` and trims chunks with
`String.prototype.trim`, both of which use this class. -/
def isWsChar (c : Char) : Bool :=
  c == ' ' || c == '\t' || c == '\n' || c == '\r' || c == Char.ofNat 11 || c == Char.ofNat 12

/-- Sentence terminators of the sentence regex `/[^.!?]+[.!?]+/g`. -/
def isTermChar (c : Char) : Bool :=
  c == '.' || c == '!' || c == '?'

/-- `chars s` is the character list of a string literal. -/
def chars (s : String) : List Char := s.data

/-- `estimateTokens` (route.ts line 59): `Math.ceil(text.length / 4)`. -/
def estimateTokens (text : List Char) : Nat := (text.length + 3) / 4

/-- JavaScript `String.prototype.trim`: drop leading and trailing
whitespace. -/
def jsTrim (l : List Char) : List Char :=
  ((l.dropWhile isWsChar).reverse.dropWhile isWsChar).reverse

/-- For a maximal whitespace run `w`, decide whether `/\n\s*\n/` matches
inside it.  The regex needs two `\n` characters in the run; the match then
spans from the first `\n` to the last `\n` of the run (the leftmost start,
with greedy `\s*` backtracking to the last `\n`).  Returns the part of the
run before the first `\n` (it stays with the preceding paragraph) and the
part after the last `\n` (it starts the following paragraph). -/
def splitWsRun (w : List Char) : Option (List Char × List Char) :=
  if 2 ≤ w.countP (fun c => c == '\n') then
    some (w.takeWhile (fun c => c != '\n'), (w.reverse.takeWhile (fun c => c != '\n')).reverse)
  else none

/-- Scanner realising JavaScript `text.split(/\n\s*\n/)`: `ws` buffers the
current maximal whitespace run, `acc` the current paragraph so far.  When a
non-whitespace character (or the end) flushes the run, the run is either a
paragraph separator (two or more `\n`) or literal content. -/
def paraScan : List Char → List Char → List Char → List (List Char)
  | [], ws, acc =>
    match splitWsRun ws with
    | some (pre, post) => [acc ++ pre, post]
    | none => [acc ++ ws]
  | c :: rest, ws, acc =>
    if isWsChar c then paraScan rest (ws ++ [c]) acc
    else
      match splitWsRun ws with
      | some (pre, post) => (acc ++ pre) :: paraScan rest [] (post ++ [c])
      | none => paraScan rest [] (acc ++ ws ++ [c])

/-- `text.split(/\n\s*\n/)` (route.ts line 71). -/
def paragraphsOf (text : List Char) : List (List Char) := paraScan text [] []

/-- Scanner realising `paragraph.match(/[^.!?]+[.!?]+/g)`: `a` accumulates
the current `[^.!?]+` run, `b` the following `[.!?]+` run (`b ≠ []` means a
match is pending).  Unmatched text (leading terminators, a trailing run
without terminator) belongs to no match, exactly as with the global regex. -/
def sentScan : List Char → List Char → List Char → List (List Char)
  | [], a, b => if a ≠ [] ∧ b ≠ [] then [a ++ b] else []
  | c :: rest, a, b =>
    if isTermChar c then
      if a.isEmpty then sentScan rest [] []
      else sentScan rest a (b ++ [c])
    else
      if b.isEmpty then sentScan rest (a ++ [c]) []
      else (a ++ b) :: sentScan rest [c] []

/-- All matches of `/[^.!?]+[.!?]+/g` in a paragraph. -/
def sentencesOf (p : List Char) : List (List Char) := sentScan p [] []

/-- `paragraph.match(...) || [paragraph]` (route.ts line 75): a paragraph
with no sentence match is used whole. -/
def sentencesOrSelf (p : List Char) : List (List Char) :=
  match sentencesOf p with
  | [] => [p]
  | l => l

/-- Accumulator state of `splitIntoChunks`: the flushed chunks and the
`currentChunk` string. -/
structure ChunkState where
  chunks : List (List Char)
  current : List Char
deriving Repr, DecidableEq

/-- Body of the sentence loop (route.ts lines 77-84). -/
def processSentence (maxTokens : Nat) (st : ChunkState) (s : List Char) : ChunkState :=
  if estimateTokens (st.current ++ s) > maxTokens ∧ st.current ≠ [] then
    ⟨st.chunks ++ [jsTrim st.current], s⟩
  else
    ⟨st.chunks, st.current ++ s⟩

/-- Body of the paragraph loop (route.ts lines 73-93): an oversized
paragraph is re-split into sentences; otherwise the paragraph is flushed or
appended, with a blank-line separator when the accumulator is non-empty. -/
def processParagraph (maxTokens : Nat) (st : ChunkState) (p : List Char) : ChunkState :=
  if estimateTokens p > maxTokens then
    (sentencesOrSelf p).foldl (processSentence maxTokens) st
  else if estimateTokens (st.current ++ p) > maxTokens ∧ st.current ≠ [] then
    ⟨st.chunks ++ [jsTrim st.current], p⟩
  else
    ⟨st.chunks, st.current ++ (if st.current = [] then p else '\n' :: '\n' :: p)⟩

/-- `splitIntoChunks` (route.ts lines 64-100).  The source fixes
`MAX_CHUNK_TOKENS = 15000` inside the function; the spec's contract
(`splitIntoChunks(text, maxTokens)`) takes the ceiling as a parameter, so
the ceiling is lifted to a parameter here and the source's function is
`splitIntoChunks MAX_CHUNK_TOKENS`. -/
def splitIntoChunks (maxTokens : Nat) (text : List Char) : List (List Char) :=
  let st := (paragraphsOf text).foldl (processParagraph maxTokens) ⟨[], []⟩
  if st.current = [] then st.chunks else st.chunks ++ [jsTrim st.current]

/-- `MAX_CHUNK_TOKENS` (route.ts line 65). -/
def MAX_CHUNK_TOKENS : Nat := 15000

/-!
## Unit decomposition of the chunker

The chunker consumes a sequence of accumulation units: each paragraph whose
estimate fits the ceiling is one unit; an oversized paragraph contributes
its sentence matches (or itself if there is none) as units.  The fold over
paragraphs equals a uniform fold over this unit sequence; this is the basis
for the structural theorems about `splitIntoChunks`.
-/

/-- One accumulation unit: a whole paragraph (`para = true`, joined with a
blank-line separator) or a sentence of an oversized paragraph
(`para = false`, concatenated directly). -/
structure ChunkUnit where
  para : Bool
  content : List Char
deriving Repr, DecidableEq

/-- How `splitIntoChunks` extends `currentChunk` by one unit when it does
not flush. -/
def appendUnit (cur : List Char) (u : ChunkUnit) : List Char :=
  if u.para then (if cur = [] then u.content else cur ++ '\n' :: '\n' :: u.content)
  else cur ++ u.content

/-- The text a group of consecutive units accumulates into. -/
def joinUnits (us : List ChunkUnit) : List Char := us.foldl appendUnit []

/-- Uniform accumulate-or-flush step of the chunker, acting on one unit. -/
def processUnit (maxTokens : Nat) (st : ChunkState) (u : ChunkUnit) : ChunkState :=
  if estimateTokens (st.current ++ u.content) > maxTokens ∧ st.current ≠ [] then
    ⟨st.chunks ++ [jsTrim st.current], u.content⟩
  else
    ⟨st.chunks, appendUnit st.current u⟩

/-- Units contributed by one paragraph. -/
def unitsOfPara (maxTokens : Nat) (p : List Char) : List ChunkUnit :=
  if estimateTokens p > maxTokens then (sentencesOrSelf p).map (fun s => ⟨false, s⟩)
  else [⟨true, p⟩]

/-- The unit sequence of a text. -/
def unitsOf (maxTokens : Nat) (text : List Char) : List ChunkUnit :=
  (paragraphsOf text).flatMap (unitsOfPara maxTokens)

theorem processSentence_eq_processUnit (N : Nat) (st : ChunkState) (s : List Char) :
    processSentence N st s = processUnit N st ⟨false, s⟩ := by
  simp [processSentence, processUnit, appendUnit]

theorem processParagraph_eq_units (N : Nat) (st : ChunkState) (p : List Char) :
    processParagraph N st p = (unitsOfPara N p).foldl (processUnit N) st := by
  by_cases h : estimateTokens p > N
  · simp only [processParagraph, unitsOfPara, if_pos h, List.foldl_map]
    have hfun : processSentence N = fun st' (s : List Char) => processUnit N st' ⟨false, s⟩ :=
      funext fun st' => funext fun s => processSentence_eq_processUnit N st' s
    rw [hfun]
  · simp only [processParagraph, unitsOfPara, if_neg h, List.foldl_cons, List.foldl_nil,
      processUnit, appendUnit, if_pos trivial]
    by_cases hcur : st.current = [] <;> simp [hcur]

theorem foldl_paragraphs_eq_units (N : Nat) :
    ∀ (ps : List (List Char)) (st : ChunkState),
      ps.foldl (processParagraph N) st =
        (ps.flatMap (unitsOfPara N)).foldl (processUnit N) st := by
  intro ps
  induction ps with
  | nil => intro st; rfl
  | cons p ps ih =>
    intro st
    simp only [List.foldl_cons, List.flatMap_cons, List.foldl_append,
      processParagraph_eq_units]
    exact ih _

theorem splitIntoChunks_eq_units (N : Nat) (t : List Char) :
    splitIntoChunks N t =
      (let st := (unitsOf N t).foldl (processUnit N) ⟨[], []⟩
       if st.current = [] then st.chunks else st.chunks ++ [jsTrim st.current]) := by
  simp only [splitIntoChunks, unitsOf, foldl_paragraphs_eq_units]

theorem joinUnits_nil : joinUnits [] = [] := rfl

theorem joinUnits_append_one (cg : List ChunkUnit) (u : ChunkUnit) :
    joinUnits (cg ++ [u]) = appendUnit (joinUnits cg) u := by
  simp [joinUnits, List.foldl_append]

theorem joinUnits_singleton (u : ChunkUnit) : joinUnits [u] = u.content := by
  by_cases h : u.para <;> simp [joinUnits, appendUnit, h]

/-- Invariant of the accumulate-or-flush fold: the flushed chunks are the
trims of the joins of an ordered sequence of unit groups `gs`, and
`currentChunk` is the join of the trailing group `cg`. -/
theorem foldl_processUnit_groups (N : Nat) :
    ∀ (us : List ChunkUnit) (st : ChunkState) (gs : List (List ChunkUnit)) (cg : List ChunkUnit),
      st.chunks = gs.map (fun g => jsTrim (joinUnits g)) →
      st.current = joinUnits cg →
      (∀ g ∈ gs, joinUnits g ≠ []) →
      ∃ (gs' : List (List ChunkUnit)) (cg' : List ChunkUnit),
        (us.foldl (processUnit N) st).chunks = gs'.map (fun g => jsTrim (joinUnits g)) ∧
        (us.foldl (processUnit N) st).current = joinUnits cg' ∧
        (∀ g ∈ gs', joinUnits g ≠ []) ∧
        gs'.flatten ++ cg' = gs.flatten ++ cg ++ us := by
  intro us
  induction us with
  | nil =>
    intro st gs cg h1 h2 h3
    exact ⟨gs, cg, h1, h2, h3, by simp⟩
  | cons u us ih =>
    intro st gs cg h1 h2 h3
    simp only [List.foldl_cons]
    by_cases hc : estimateTokens (st.current ++ u.content) > N ∧ st.current ≠ []
    · have hstep : processUnit N st u = ⟨st.chunks ++ [jsTrim st.current], u.content⟩ := by
        simp [processUnit, if_pos hc]
      rw [hstep]
      obtain ⟨gs', cg', e1, e2, e3, e4⟩ := ih ⟨st.chunks ++ [jsTrim st.current], u.content⟩
        (gs ++ [cg]) [u]
        (by simp [h1, h2]) (by simp [joinUnits_singleton])
        (by
          intro g hg
          rcases List.mem_append.1 hg with h | h
          · exact h3 g h
          · simp only [List.mem_singleton] at h
            subst h; rw [← h2]; exact hc.2)
      refine ⟨gs', cg', e1, e2, e3, ?_⟩
      rw [e4]; simp
    · have hstep : processUnit N st u = ⟨st.chunks, appendUnit st.current u⟩ := by
        simp [processUnit, if_neg hc]
      rw [hstep]
      obtain ⟨gs', cg', e1, e2, e3, e4⟩ := ih ⟨st.chunks, appendUnit st.current u⟩
        gs (cg ++ [u]) (by simp [h1]) (by simp [joinUnits_append_one, h2]) h3
      refine ⟨gs', cg', e1, e2, e3, ?_⟩
      rw [e4]; simp

/-- C8 (counterexample): `splitIntoChunks` applied to the one-space text
returns a single chunk that is the empty string — `currentChunk` is the
non-empty string `" "`, and the final `currentChunk.trim()` empties it — so
"every returned chunk is a non-empty string" fails on the code. -/
theorem c8_counterexample : splitIntoChunks MAX_CHUNK_TOKENS (chars " ") = [[]] := by decide

/-- C8 (amended): every chunk of `splitIntoChunks N t` is the trim of the
text accumulated from one group of consecutive units (paragraphs, or
sentences of oversized paragraphs) of `t`; the groups partition the unit
sequence in input order (up to a whitespace-only trailing remainder), each
group accumulates a non-empty text, and a chunk is therefore empty exactly
when its group's text is all whitespace.  Chunk order matches input order;
non-emptiness holds only up to trimming. -/
theorem c8_chunks_are_ordered_unit_groups (N : Nat) (t : List Char) :
    ∃ (gs : List (List ChunkUnit)) (rest : List ChunkUnit),
      gs.flatten ++ rest = unitsOf N t ∧
      (∀ g ∈ gs, joinUnits g ≠ []) ∧
      joinUnits rest = [] ∧
      splitIntoChunks N t = gs.map (fun g => jsTrim (joinUnits g)) := by
  obtain ⟨gs', cg', e1, e2, e3, e4⟩ :=
    foldl_processUnit_groups N (unitsOf N t) ⟨[], []⟩ [] [] rfl rfl (by simp)
  rw [splitIntoChunks_eq_units]
  by_cases hcur : ((unitsOf N t).foldl (processUnit N) ⟨[], []⟩).current = []
  · refine ⟨gs', cg', ?_, e3, ?_, ?_⟩
    · rw [e4]; simp
    · rw [← e2, hcur]
    · simp only [if_pos hcur]; exact e1
  · refine ⟨gs' ++ [cg'], [], ?_, ?_, rfl, ?_⟩
    · simp only [List.flatten_append, List.flatten_cons, List.flatten_nil,
        List.append_nil, List.append_assoc] at e4 ⊢
      rw [e4]; simp
    · intro g hg
      rcases List.mem_append.1 hg with h | h
      · exact e3 g h
      · simp only [List.mem_singleton] at h
        subst h; rw [← e2]; exact hcur
    · simp only [if_neg hcur, e1, ← e2, List.map_append, List.map_cons, List.map_nil]

/-!
## Arithmetic and trimming helper lemmas
-/

theorem length_dropWhile_le (p : Char → Bool) (l : List Char) :
    (l.dropWhile p).length ≤ l.length := by
  induction l with
  | nil => simp
  | cons a l ih =>
    by_cases h : p a
    · simp only [List.dropWhile_cons, if_pos h, List.length_cons]
      omega
    · simp only [List.dropWhile_cons, if_neg h, List.length_cons, le_refl]

theorem estimateTokens_mono {a b : List Char} (h : a.length ≤ b.length) :
    estimateTokens a ≤ estimateTokens b :=
  Nat.div_le_div_right (Nat.add_le_add_right h 3)

theorem length_jsTrim_le (l : List Char) : (jsTrim l).length ≤ l.length := by
  calc (jsTrim l).length
      = ((l.dropWhile isWsChar).reverse.dropWhile isWsChar).length := by
        simp [jsTrim]
    _ ≤ (l.dropWhile isWsChar).reverse.length := length_dropWhile_le _ _
    _ = (l.dropWhile isWsChar).length := by simp
    _ ≤ l.length := length_dropWhile_le _ _

theorem estimateTokens_jsTrim_le (l : List Char) :
    estimateTokens (jsTrim l) ≤ estimateTokens l :=
  estimateTokens_mono (length_jsTrim_le l)

theorem estimateTokens_append_left (a b : List Char) :
    estimateTokens a ≤ estimateTokens (a ++ b) :=
  estimateTokens_mono (by simp)

/-- The blank-line separator the chunker inserts but does not count adds at
most one estimated token. -/
theorem estimateTokens_sep_le (a b : List Char) :
    estimateTokens (a ++ '\n' :: '\n' :: b) ≤ estimateTokens (a ++ b) + 1 := by
  simp only [estimateTokens, List.length_append, List.length_cons]
  omega

/-!
## C7: chunk size bound
-/

/-- A chunk consisting of a single unsplittable sentence (or sentence-less
paragraph) of an oversized paragraph of `t`, itself exceeding the ceiling —
the documented exception of the chunk-size claim. -/
def oversizedUnitChunk (N : Nat) (t c : List Char) : Prop :=
  ∃ p ∈ paragraphsOf t, N < estimateTokens p ∧
    ∃ s ∈ sentencesOrSelf p, c = jsTrim s ∧ N < estimateTokens s

/-- Invariant for `currentChunk`: it fits the ceiling up to the uncounted
separator, or it is a single oversized sentence of an oversized paragraph. -/
def CurOK (N : Nat) (t cur : List Char) : Prop :=
  estimateTokens cur ≤ N + 1 ∨
    ∃ p ∈ paragraphsOf t, N < estimateTokens p ∧ cur ∈ sentencesOrSelf p ∧ N < estimateTokens cur

/-- What `unitsOf` guarantees about each unit it produces. -/
def UnitFromText (N : Nat) (t : List Char) (u : ChunkUnit) : Prop :=
  (u.para = true → estimateTokens u.content ≤ N) ∧
  (u.para = false → ∃ p ∈ paragraphsOf t, N < estimateTokens p ∧ u.content ∈ sentencesOrSelf p)

theorem unitsOf_from_text (N : Nat) (t : List Char) :
    ∀ u ∈ unitsOf N t, UnitFromText N t u := by
  intro u hu
  obtain ⟨p, hp, hu⟩ := List.mem_flatMap.1 hu
  by_cases h : estimateTokens p > N
  · simp only [unitsOfPara, if_pos h, List.mem_map] at hu
    obtain ⟨s, hs, rfl⟩ := hu
    exact ⟨fun hfalse => by simp at hfalse, fun _ => ⟨p, hp, h, hs⟩⟩
  · simp only [unitsOfPara, if_neg h, List.mem_singleton] at hu
    subst hu
    exact ⟨fun _ => Nat.le_of_not_lt h, fun hfalse => by simp at hfalse⟩

theorem curOK_trim {N : Nat} {t cur : List Char} (h : CurOK N t cur) :
    estimateTokens (jsTrim cur) ≤ N + 1 ∨ oversizedUnitChunk N t (jsTrim cur) := by
  rcases h with h | ⟨p, hp, hbig, hmem, hcur⟩
  · exact Or.inl (le_trans (estimateTokens_jsTrim_le cur) h)
  · exact Or.inr ⟨p, hp, hbig, cur, hmem, rfl, hcur⟩

theorem curOK_of_unit {N : Nat} {t : List Char} {u : ChunkUnit} (hu : UnitFromText N t u) :
    CurOK N t u.content := by
  cases hpara : u.para
  · obtain ⟨p, hp, hbig, hmem⟩ := hu.2 hpara
    by_cases hle : estimateTokens u.content ≤ N + 1
    · exact Or.inl hle
    · exact Or.inr ⟨p, hp, hbig, hmem, by omega⟩
  · exact Or.inl (le_trans (hu.1 hpara) (Nat.le_succ N))

theorem appendUnit_nil (u : ChunkUnit) : appendUnit [] u = u.content := by
  by_cases h : u.para <;> simp [appendUnit, h]

theorem foldl_processUnit_good (N : Nat) (t : List Char) :
    ∀ (us : List ChunkUnit) (st : ChunkState),
      (∀ u ∈ us, UnitFromText N t u) →
      (∀ c ∈ st.chunks, estimateTokens c ≤ N + 1 ∨ oversizedUnitChunk N t c) →
      CurOK N t st.current →
      (∀ c ∈ (us.foldl (processUnit N) st).chunks,
        estimateTokens c ≤ N + 1 ∨ oversizedUnitChunk N t c) ∧
      CurOK N t (us.foldl (processUnit N) st).current := by
  intro us
  induction us with
  | nil => intro st _ h2 h3; exact ⟨h2, h3⟩
  | cons u us ih =>
    intro st h1 h2 h3
    have hu : UnitFromText N t u := h1 u (List.mem_cons_self u us)
    have h1' : ∀ v ∈ us, UnitFromText N t v := fun v hv => h1 v (List.mem_cons_of_mem u hv)
    simp only [List.foldl_cons]
    by_cases hc : estimateTokens (st.current ++ u.content) > N ∧ st.current ≠ []
    · have hstep : processUnit N st u = ⟨st.chunks ++ [jsTrim st.current], u.content⟩ := by
        simp [processUnit, if_pos hc]
      rw [hstep]
      refine ih _ h1' ?_ (curOK_of_unit hu)
      intro c hcmem
      rcases List.mem_append.1 hcmem with h | h
      · exact h2 c h
      · simp only [List.mem_singleton] at h
        subst h
        exact curOK_trim h3
    · have hstep : processUnit N st u = ⟨st.chunks, appendUnit st.current u⟩ := by
        simp [processUnit, if_neg hc]
      rw [hstep]
      refine ih _ h1' h2 ?_
      by_cases hnil : st.current = []
      · rw [hnil, appendUnit_nil]
        exact curOK_of_unit hu
      · have hle : estimateTokens (st.current ++ u.content) ≤ N := by
          rcases not_and_or.1 hc with h | h
          · exact Nat.le_of_not_lt h
          · exact absurd (not_not.1 h) hnil
        cases hpara : u.para
        · have : appendUnit st.current u = st.current ++ u.content := by
            simp [appendUnit, hpara]
          rw [this]
          exact Or.inl (le_trans hle (Nat.le_succ N))
        · have : appendUnit st.current u = st.current ++ '\n' :: '\n' :: u.content := by
            simp [appendUnit, hpara, hnil]
          rw [this]
          exact Or.inl (le_trans (estimateTokens_sep_le _ _) (Nat.add_le_add_right hle 1))

/-- C7 (amended): every chunk of `splitIntoChunks N t` has an estimated
token count of at most `N + 1` — the flush check ignores the two-character
blank-line separator the paragraph branch appends, so the bound `N` of the
claim is off by one — except chunks that are a single unsplittable
sentence (or sentence-less paragraph) of an oversized paragraph, which can
be arbitrarily large. -/
theorem c7_chunk_size_bound (N : Nat) (t : List Char) :
    ∀ c ∈ splitIntoChunks N t, estimateTokens c ≤ N + 1 ∨ oversizedUnitChunk N t c := by
  intro c hc
  rw [splitIntoChunks_eq_units] at hc
  have hmain := foldl_processUnit_good N t (unitsOf N t) ⟨[], []⟩
    (unitsOf_from_text N t) (by simp) (Or.inl (by simp [estimateTokens]))
  by_cases hcur : ((unitsOf N t).foldl (processUnit N) ⟨[], []⟩).current = []
  · simp only [if_pos hcur] at hc
    exact hmain.1 c hc
  · simp only [if_neg hcur] at hc
    rcases List.mem_append.1 hc with h | h
    · exact hmain.1 c h
    · simp only [List.mem_singleton] at h
      subst h
      exact curOK_trim hmain.2

/-- C7 (witness for the amended bound): a two-paragraph text whose single
chunk estimates to `N + 1` with ceiling `N = 1`. -/
theorem c7_chunk_size_bound_witness :
    chars "ab\n\ncd" ∈ splitIntoChunks 1 (chars "ab\n\ncd") ∧
      (estimateTokens (chars "ab\n\ncd") ≤ 1 + 1 ∨
        oversizedUnitChunk 1 (chars "ab\n\ncd") (chars "ab\n\ncd")) :=
  ⟨by decide, c7_chunk_size_bound 1 (chars "ab\n\ncd") (chars "ab\n\ncd") (by decide)⟩

/-!
## Evaluation lemmas for large (replicate-built) inputs

The condensation threshold (60000 tokens) and the chunk ceiling (15000
tokens) are fixed in the source, so concrete runs that exercise them need
texts of tens of thousands of characters; these are built with
`List.replicate` and evaluated with the following lemmas instead of kernel
reduction.
-/

theorem takeWhile_all_append (p : Char → Bool) (l r : List Char)
    (h : ∀ c ∈ l, p c = true) :
    List.takeWhile p (l ++ r) = l ++ List.takeWhile p r := by
  induction l with
  | nil => simp
  | cons a l ih =>
    have ha : p a = true := h a (List.mem_cons_self a l)
    simp only [List.cons_append, List.takeWhile_cons, ha, if_pos]
    rw [ih fun c hc => h c (List.mem_cons_of_mem a hc)]

theorem dropWhile_all_append (p : Char → Bool) (l r : List Char)
    (h : ∀ c ∈ l, p c = true) :
    List.dropWhile p (l ++ r) = List.dropWhile p r := by
  induction l with
  | nil => simp
  | cons a l ih =>
    have ha : p a = true := h a (List.mem_cons_self a l)
    simp only [List.cons_append, List.dropWhile_cons, ha, if_pos]
    exact ih fun c hc => h c (List.mem_cons_of_mem a hc)

theorem splitWsRun_no_nl (ws : List Char) (h : ∀ c ∈ ws, c ≠ '\n') :
    splitWsRun ws = none := by
  have hcount : ws.countP (fun c => c == '\n') = 0 :=
    List.countP_eq_zero.2 fun c hc => by simp [h c hc]
  simp [splitWsRun, hcount]

/-- Scanning a newline-free segment of text never produces a paragraph
boundary: it only moves characters into the paragraph accumulator. -/
theorem paraScan_nlfree_seg :
    ∀ (A r ws acc : List Char), (∀ c ∈ A, c ≠ '\n') → (∀ c ∈ ws, c ≠ '\n') →
      ∃ ws' acc', paraScan (A ++ r) ws acc = paraScan r ws' acc' ∧
        acc' ++ ws' = acc ++ ws ++ A ∧ (∀ c ∈ ws', c ≠ '\n') := by
  intro A
  induction A with
  | nil =>
    intro r ws acc _ hws
    exact ⟨ws, acc, by simp, by simp, hws⟩
  | cons c A ih =>
    intro r ws acc hA hws
    have hc : c ≠ '\n' := hA c (List.mem_cons_self c A)
    have hA' : ∀ x ∈ A, x ≠ '\n' := fun x hx => hA x (List.mem_cons_of_mem c hx)
    by_cases hw : isWsChar c
    · have hstep : paraScan ((c :: A) ++ r) ws acc = paraScan (A ++ r) (ws ++ [c]) acc := by
        simp [paraScan, hw]
      obtain ⟨ws', acc', e1, e2, e3⟩ := ih r (ws ++ [c]) acc hA'
        (by
          intro x hx
          rcases List.mem_append.1 hx with h | h
          · exact hws x h
          · simp only [List.mem_singleton] at h; subst h; exact hc)
      exact ⟨ws', acc', by rw [hstep, e1], by rw [e2]; simp, e3⟩
    · have hstep : paraScan ((c :: A) ++ r) ws acc = paraScan (A ++ r) [] (acc ++ ws ++ [c]) := by
        simp [paraScan, hw, splitWsRun_no_nl ws hws]
      obtain ⟨ws', acc', e1, e2, e3⟩ := ih r [] (acc ++ ws ++ [c]) hA' (by simp)
      exact ⟨ws', acc', by rw [hstep, e1], by rw [e2]; simp, e3⟩

theorem paragraphsOf_nlfree (A : List Char) (hA : ∀ c ∈ A, c ≠ '\n') :
    paragraphsOf A = [A] := by
  obtain ⟨ws', acc', e1, e2, e3⟩ := paraScan_nlfree_seg A [] [] [] hA (by simp)
  have : paraScan (A ++ []) [] [] = [acc' ++ ws'] := by
    rw [e1]
    simp [paraScan, splitWsRun_no_nl ws' e3]
  rw [List.append_nil] at this
  simp only [List.nil_append] at e2
  rw [paragraphsOf, this, e2]

/-- A text of two newline-free paragraphs separated by exactly one blank
line splits into those two paragraphs. -/
theorem paragraphsOf_sep (A : List Char) (b : Char) (B : List Char)
    (hA : ∀ c ∈ A, c ≠ '\n') (hb : isWsChar b = false) (hB : ∀ c ∈ B, c ≠ '\n') :
    paragraphsOf (A ++ '\n' :: '\n' :: b :: B) = [A, b :: B] := by
  obtain ⟨ws', acc', e1, e2, e3⟩ :=
    paraScan_nlfree_seg A ('\n' :: '\n' :: b :: B) [] [] hA (by simp)
  have hsplit : splitWsRun (ws' ++ ['\n', '\n']) = some (ws', []) := by
    have hcount : (ws' ++ ['\n', '\n']).countP (fun c => c == '\n') = 2 := by
      rw [List.countP_append]
      rw [List.countP_eq_zero.2 fun c hc => by simp [e3 c hc]]
      rfl
    have htake : (ws' ++ ['\n', '\n']).takeWhile (fun c => c != '\n') = ws' := by
      rw [takeWhile_all_append _ _ _ fun c hc => by simp [e3 c hc]]
      simp [List.takeWhile_cons]
    have hrev : ((ws' ++ ['\n', '\n']).reverse.takeWhile (fun c => c != '\n')).reverse = [] := by
      simp [List.reverse_append, List.takeWhile_cons]
    simp [splitWsRun, hcount, htake, hrev]
  have hstep : paraScan ('\n' :: '\n' :: b :: B) ws' acc' =
      (acc' ++ ws') :: paraScan B [] [b] := by
    have h1 : isWsChar '\n' = true := by decide
    simp only [paraScan, h1, if_pos]
    rw [List.append_assoc ws' ['\n'] ['\n']]
    simp only [paraScan, hb, Bool.false_eq_true, if_neg, List.cons_append, List.nil_append,
      hsplit]
    simp [hb]
  have hlast : paraScan B [] [b] = [b :: B] := by
    obtain ⟨ws'', acc'', f1, f2, f3⟩ := paraScan_nlfree_seg B [] [] [b] hB (by simp)
    have : paraScan (B ++ []) [] [b] = [acc'' ++ ws''] := by
      rw [f1]
      simp [paraScan, splitWsRun_no_nl ws'' f3]
    rw [List.append_nil] at this
    rw [this, f2]
    simp
  rw [paragraphsOf, e1, hstep, hlast]
  simp only [List.nil_append] at e2
  rw [e2]

theorem sentScan_nonterm_seg :
    ∀ (l r a : List Char), (∀ c ∈ l, isTermChar c = false) →
      sentScan (l ++ r) a [] = sentScan r (a ++ l) [] := by
  intro l
  induction l with
  | nil => intro r a _; simp
  | cons c l ih =>
    intro r a hl
    have hc : isTermChar c = false := hl c (List.mem_cons_self c l)
    have hstep : sentScan ((c :: l) ++ r) a [] = sentScan (l ++ r) (a ++ [c]) [] := by
      simp [sentScan, hc]
    rw [hstep, ih r (a ++ [c]) fun x hx => hl x (List.mem_cons_of_mem c hx)]
    simp

theorem sentencesOf_nonterm (l : List Char) (h : ∀ c ∈ l, isTermChar c = false) :
    sentencesOf l = [] := by
  have := sentScan_nonterm_seg l [] [] h
  rw [List.append_nil] at this
  rw [sentencesOf, this]
  simp [sentScan]

theorem dropWhile_isWs_cons (c : Char) (l : List Char) (h : isWsChar c = false) :
    List.dropWhile isWsChar (c :: l) = c :: l := by
  simp [List.dropWhile_cons, h]

theorem jsTrim_eq_self (l : List Char)
    (h1 : List.dropWhile isWsChar l = l)
    (h2 : List.dropWhile isWsChar l.reverse = l.reverse) :
    jsTrim l = l := by
  simp [jsTrim, h1, h2]

/-- C7 counterexample input: two paragraphs of 30000 `'a'`s separated by a
blank line. -/
def c7A : List Char := List.replicate 30000 'a'

/-- The whole C7 counterexample text. -/
def c7text : List Char := c7A ++ '\n' :: '\n' :: c7A

theorem c7A_cons : c7A = 'a' :: List.replicate 29999 'a' := by
  rw [c7A, show (30000 : Nat) = 29999 + 1 from rfl, List.replicate_succ]

theorem c7A_mem (c : Char) (hc : c ∈ c7A) : c = 'a' :=
  List.eq_of_mem_replicate hc

theorem est_c7A : estimateTokens c7A = 7500 := by
  rw [estimateTokens, c7A, List.length_replicate]

theorem est_c7AA : estimateTokens (c7A ++ c7A) = 15000 := by
  rw [estimateTokens, List.length_append, c7A, List.length_replicate]

theorem est_c7text : estimateTokens c7text = 15001 := by
  rw [estimateTokens, c7text, List.length_append, List.length_cons, List.length_cons,
    c7A, List.length_replicate]

theorem c7text_ne_nil : c7text ≠ [] := by
  rw [c7text, c7A_cons, List.cons_append]
  exact List.cons_ne_nil _ _

theorem paragraphsOf_c7text : paragraphsOf c7text = [c7A, c7A] := by
  have h := paragraphsOf_sep c7A 'a' (List.replicate 29999 'a')
    (fun c hc => by rw [c7A_mem c hc]; decide)
    (by decide)
    (fun c hc => by rw [List.eq_of_mem_replicate hc]; decide)
  rw [c7text, c7A_cons]
  rw [c7A_cons] at h
  exact h

theorem c7A_reverse : c7A.reverse = c7A := by
  rw [c7A, List.reverse_replicate]

theorem c7A_ne_nil : c7A ≠ [] := by
  rw [c7A_cons]
  exact List.cons_ne_nil _ _

theorem jsTrim_c7text : jsTrim c7text = c7text := by
  have hrev : c7text.reverse = c7text := by
    rw [c7text, List.reverse_append, List.reverse_cons, List.reverse_cons, c7A_reverse]
    simp only [List.append_assoc, List.cons_append, List.singleton_append, List.nil_append]
  have hdrop : List.dropWhile isWsChar c7text = c7text := by
    rw [c7text, c7A_cons, List.cons_append]
    exact dropWhile_isWs_cons _ _ (by decide)
  exact jsTrim_eq_self c7text hdrop (by rw [hrev]; exact hdrop)

theorem splitIntoChunks_c7text :
    splitIntoChunks MAX_CHUNK_TOKENS c7text = [c7text] := by
  have hover : ¬ estimateTokens c7A > 15000 := by rw [est_c7A]; omega
  have h1 : processParagraph 15000 ⟨[], []⟩ c7A = ⟨[], c7A⟩ := by
    simp only [processParagraph]
    rw [if_neg hover, if_neg (fun h => h.2 rfl)]
    simp
  have h2 : processParagraph 15000 ⟨[], c7A⟩ c7A = ⟨[], c7text⟩ := by
    simp only [processParagraph]
    rw [if_neg hover,
      if_neg (fun h => absurd h.1 (by simp only [est_c7AA]; omega)),
      if_neg c7A_ne_nil, ← c7text]
  simp only [splitIntoChunks, MAX_CHUNK_TOKENS, paragraphsOf_c7text, List.foldl_cons,
    List.foldl_nil, h1, h2]
  rw [if_neg c7text_ne_nil, jsTrim_c7text]
  simp

/-- C7 (counterexample): with the source's ceiling `N = 15000`, the text of
two 30000-character paragraphs produces one chunk that estimates to
`15001 > N` yet consists of two paragraphs, each far below the ceiling —
refuting "every chunk's estimate is ≤ N except single oversized
sentences/paragraphs".  The flush check measures `currentChunk + paragraph`
without the two-character blank-line separator that is then appended. -/
theorem c7_counterexample :
    ∃ c ∈ splitIntoChunks MAX_CHUNK_TOKENS c7text,
      MAX_CHUNK_TOKENS < estimateTokens c ∧
        ¬ oversizedUnitChunk MAX_CHUNK_TOKENS c7text c := by
  refine ⟨c7text, by rw [splitIntoChunks_c7text]; simp, ?_, ?_⟩
  · rw [est_c7text, MAX_CHUNK_TOKENS]
    omega
  · rintro ⟨p, hp, hbig, _⟩
    rw [paragraphsOf_c7text] at hp
    rw [MAX_CHUNK_TOKENS] at hbig
    simp only [List.mem_cons, List.mem_singleton, List.not_mem_nil, or_false] at hp
    rcases hp with rfl | rfl <;> rw [est_c7A] at hbig <;> omega

theorem sentScan_term_step (c : Char) (rest a b : List Char)
    (hc : isTermChar c = true) (ha : a ≠ []) :
    sentScan (c :: rest) a b = sentScan rest a (b ++ [c]) := by
  have hae : a.isEmpty = false := by
    cases a
    · exact absurd rfl ha
    · rfl
  simp [sentScan, hc, hae]

theorem sentScan_nonterm_emit (c : Char) (rest a b : List Char)
    (hc : isTermChar c = false) (hb : b ≠ []) :
    sentScan (c :: rest) a b = (a ++ b) :: sentScan rest [c] [] := by
  have hbe : b.isEmpty = false := by
    cases b
    · exact absurd rfl hb
    · rfl
  simp [sentScan, hc, hbe]

theorem sentScan_end_emit (a b : List Char) (ha : a ≠ []) (hb : b ≠ []) :
    sentScan [] a b = [a ++ b] := by
  simp [sentScan, ha, hb]

/-- `summaries.join('\n\n')` and the blank-line separator used throughout
route.ts. -/
def joinBlankLine (l : List (List Char)) : List Char :=
  List.intercalate ['\n', '\n'] l

theorem joinBlankLine_pair (a b : List Char) :
    joinBlankLine [a, b] = a ++ '\n' :: '\n' :: b := by
  simp [joinBlankLine, List.intercalate, List.intersperse]

theorem joinBlankLine_single (a : List Char) : joinBlankLine [a] = a := by
  simp [joinBlankLine, List.intercalate, List.intersperse]

theorem jsTrim_cons_append (x : Char) (m : List Char) (y : Char)
    (hx : isWsChar x = false) (hy : isWsChar y = false) :
    jsTrim (x :: (m ++ [y])) = x :: (m ++ [y]) := by
  have hr : (x :: (m ++ [y])).reverse = y :: (m.reverse ++ [x]) := by simp
  refine jsTrim_eq_self _ (dropWhile_isWs_cons _ _ hx) ?_
  rw [hr]
  exact dropWhile_isWs_cons _ _ hy

/-- C9 counterexample: first sentence — 30000 `'a'`s and a period. -/
def c9S1 : List Char := List.replicate 30000 'a' ++ ['.']

/-- C9 counterexample: second sentence — three leading spaces (matched by
`[^.!?]+`), 29996 `'a'`s and a period. -/
def c9S2 : List Char := ' ' :: ' ' :: ' ' :: (List.replicate 29996 'a' ++ ['.'])

/-- The C9 counterexample text: a single oversized paragraph of two
sentences. -/
def c9text : List Char := c9S1 ++ c9S2

/-- The second chunk the chunker produces from `c9text`: `c9S2` after
trimming its leading spaces. -/
def c9chunk2 : List Char := List.replicate 29996 'a' ++ ['.']

theorem c9S1_ne_nil : c9S1 ≠ [] := by
  rw [c9S1, show (30000 : Nat) = 29999 + 1 from rfl, List.replicate_succ, List.cons_append]
  exact List.cons_ne_nil _ _

theorem est_c9S1 : estimateTokens c9S1 = 7501 := by
  rw [estimateTokens, c9S1, List.length_append, List.length_replicate]
  rfl

theorem c9S1_length : c9S1.length = 30001 := by
  rw [c9S1, List.length_append, List.length_replicate]
  rfl

theorem c9S2_length : c9S2.length = 30000 := by
  rw [c9S2, List.length_cons, List.length_cons, List.length_cons, List.length_append,
    List.length_replicate]
  rfl

theorem c9chunk2_length : c9chunk2.length = 29997 := by
  rw [c9chunk2, List.length_append, List.length_replicate]
  rfl

theorem est_c9text : estimateTokens c9text = 15001 := by
  rw [estimateTokens, c9text, List.length_append, c9S1_length, c9S2_length]

theorem est_c9chunk2 : estimateTokens c9chunk2 = 7500 := by
  rw [estimateTokens, c9chunk2_length]

theorem est_c9S1_chunk2 : estimateTokens (c9S1 ++ c9chunk2) = 15000 := by
  rw [estimateTokens, List.length_append, c9S1_length, c9chunk2_length]

theorem replicate_a_nonterm (n : Nat) : ∀ c ∈ List.replicate n 'a', isTermChar c = false :=
  fun c hc => by rw [List.eq_of_mem_replicate hc]; decide

theorem sentencesOf_c9text : sentencesOf c9text = [c9S1, c9S2] := by
  have e0 : c9text = List.replicate 30000 'a' ++
      ('.' :: ' ' :: ' ' :: ' ' :: (List.replicate 29996 'a' ++ ['.'])) := by
    rw [c9text, c9S1, c9S2, List.append_assoc]
    rfl
  have hrepne : (List.replicate 30000 'a' : List Char) ≠ [] := by
    rw [show (30000 : Nat) = 29999 + 1 from rfl, List.replicate_succ]
    exact List.cons_ne_nil _ _
  rw [sentencesOf, e0, sentScan_nonterm_seg _ _ [] (replicate_a_nonterm 30000),
    List.nil_append]
  rw [sentScan_term_step '.' _ _ [] (by decide) hrepne, List.nil_append]
  rw [sentScan_nonterm_emit ' ' _ _ ['.'] (by decide) (List.cons_ne_nil _ _)]
  have e1 : (' ' :: ' ' :: (List.replicate 29996 'a' ++ ['.'])) =
      (' ' :: ' ' :: List.replicate 29996 'a') ++ ['.'] := rfl
  have hnt : ∀ c ∈ (' ' :: ' ' :: List.replicate 29996 'a'), isTermChar c = false := by
    intro c hc
    rcases List.mem_cons.1 hc with rfl | hc
    · decide
    · rcases List.mem_cons.1 hc with rfl | hc
      · decide
      · exact replicate_a_nonterm 29996 c hc
  rw [e1, sentScan_nonterm_seg _ _ [' '] hnt, List.singleton_append]
  rw [sentScan_term_step '.' _ _ [] (by decide) (List.cons_ne_nil _ _), List.nil_append]
  rw [sentScan_end_emit _ _ (List.cons_ne_nil _ _) (List.cons_ne_nil _ _)]
  have e2 : (' ' :: ' ' :: ' ' :: List.replicate 29996 'a') ++ ['.'] = c9S2 := rfl
  rw [e2, c9S1]

theorem c9S1_cons : c9S1 = 'a' :: (List.replicate 29999 'a' ++ ['.']) := by
  rw [c9S1, show (30000 : Nat) = 29999 + 1 from rfl, List.replicate_succ]
  rfl

theorem c9chunk2_cons : c9chunk2 = 'a' :: (List.replicate 29995 'a' ++ ['.']) := by
  rw [c9chunk2, show (29996 : Nat) = 29995 + 1 from rfl, List.replicate_succ]
  rfl

theorem jsTrim_c9S1 : jsTrim c9S1 = c9S1 := by
  rw [c9S1_cons]
  exact jsTrim_cons_append 'a' _ '.' (by decide) (by decide)

theorem jsTrim_c9S2 : jsTrim c9S2 = c9chunk2 := by
  have hd : List.dropWhile isWsChar c9S2 = c9chunk2 := by
    rw [c9S2, List.dropWhile_cons, if_pos (by decide), List.dropWhile_cons,
      if_pos (by decide), List.dropWhile_cons, if_pos (by decide), ← c9chunk2,
      c9chunk2_cons]
    exact dropWhile_isWs_cons _ _ (by decide)
  have hrev : c9chunk2.reverse = '.' :: List.replicate 29996 'a' := by
    rw [c9chunk2, List.reverse_append, List.reverse_replicate]
    rfl
  simp only [jsTrim, hd, hrev]
  rw [dropWhile_isWs_cons _ _ (by decide), List.reverse_cons, List.reverse_replicate]
  rw [c9chunk2]

theorem splitIntoChunks_c9text :
    splitIntoChunks MAX_CHUNK_TOKENS c9text = [c9S1, c9chunk2] := by
  have hpar : paragraphsOf c9text = [c9text] := by
    refine paragraphsOf_nlfree c9text ?_
    intro c hc
    rw [c9text] at hc
    rcases List.mem_append.1 hc with h | h
    · rw [c9S1] at h
      rcases List.mem_append.1 h with h | h
      · rw [List.eq_of_mem_replicate h]; decide
      · rw [List.mem_singleton.1 h]; decide
    · rw [c9S2] at h
      rcases List.mem_cons.1 h with rfl | h
      · decide
      · rcases List.mem_cons.1 h with rfl | h
        · decide
        · rcases List.mem_cons.1 h with rfl | h
          · decide
          · rcases List.mem_append.1 h with h | h
            · rw [List.eq_of_mem_replicate h]; decide
            · rw [List.mem_singleton.1 h]; decide
  have hsent : sentencesOrSelf c9text = [c9S1, c9S2] := by
    rw [sentencesOrSelf, sentencesOf_c9text]
  have hover : estimateTokens c9text > 15000 := by rw [est_c9text]; omega
  have hs1 : processSentence 15000 ⟨[], []⟩ c9S1 = ⟨[], c9S1⟩ := by
    simp only [processSentence]
    rw [if_neg (fun h => h.2 rfl)]
    simp
  have hs2 : processSentence 15000 ⟨[], c9S1⟩ c9S2 = ⟨[jsTrim c9S1], c9S2⟩ := by
    have hcond : estimateTokens (c9S1 ++ c9S2) > 15000 ∧ c9S1 ≠ [] := by
      refine ⟨?_, c9S1_ne_nil⟩
      rw [show c9S1 ++ c9S2 = c9text from rfl, est_c9text]
      omega
    simp only [processSentence]
    rw [if_pos hcond]
    simp
  have hpp : processParagraph 15000 ⟨[], []⟩ c9text = ⟨[jsTrim c9S1], c9S2⟩ := by
    simp only [processParagraph]
    rw [if_pos hover, hsent, List.foldl_cons, hs1, List.foldl_cons, hs2, List.foldl_nil]
  have hs2ne : c9S2 ≠ [] := by
    rw [c9S2]
    exact List.cons_ne_nil _ _
  simp only [splitIntoChunks, MAX_CHUNK_TOKENS, hpar, List.foldl_cons, List.foldl_nil, hpp]
  rw [if_neg hs2ne, jsTrim_c9S1, jsTrim_c9S2]
  rfl

/-- The rejoined text of the two chunks of `c9text`. -/
def c9joined : List Char := c9S1 ++ '\n' :: '\n' :: c9chunk2

theorem c9joined_cons :
    c9joined = 'a' :: ((List.replicate 29999 'a' ++ ['.'] ++ ('\n' :: '\n' :: List.replicate 29996 'a')) ++ ['.']) := by
  rw [c9joined, c9S1_cons, c9chunk2]
  simp only [List.cons_append, List.append_assoc, List.nil_append]

theorem splitIntoChunks_c9joined :
    splitIntoChunks MAX_CHUNK_TOKENS c9joined = [c9joined] := by
  have hpar : paragraphsOf c9joined = [c9S1, c9chunk2] := by
    rw [c9joined, c9chunk2_cons]
    refine paragraphsOf_sep c9S1 'a' _ ?_ (by decide) ?_
    · intro c hc
      rw [c9S1] at hc
      rcases List.mem_append.1 hc with h | h
      · rw [List.eq_of_mem_replicate h]; decide
      · rw [List.mem_singleton.1 h]; decide
    · intro c hc
      rcases List.mem_append.1 hc with h | h
      · rw [List.eq_of_mem_replicate h]; decide
      · rw [List.mem_singleton.1 h]; decide
  have hno1 : ¬ estimateTokens c9S1 > 15000 := by rw [est_c9S1]; omega
  have hno2 : ¬ estimateTokens c9chunk2 > 15000 := by rw [est_c9chunk2]; omega
  have h1 : processParagraph 15000 ⟨[], []⟩ c9S1 = ⟨[], c9S1⟩ := by
    simp only [processParagraph]
    rw [if_neg hno1, if_neg (fun h => h.2 rfl)]
    simp
  have h2 : processParagraph 15000 ⟨[], c9S1⟩ c9chunk2 = ⟨[], c9joined⟩ := by
    simp only [processParagraph]
    rw [if_neg hno2,
      if_neg (fun h => absurd h.1 (by rw [est_c9S1_chunk2]; omega)),
      if_neg c9S1_ne_nil, ← c9joined]
  have hne : c9joined ≠ [] := by
    rw [c9joined_cons]
    exact List.cons_ne_nil _ _
  have htrim : jsTrim c9joined = c9joined := by
    rw [c9joined_cons]
    exact jsTrim_cons_append 'a' _ '.' (by decide) (by decide)
  have hfold : (paragraphsOf c9joined).foldl (processParagraph 15000) ⟨[], []⟩ =
      ⟨[], c9joined⟩ := by
    rw [hpar, List.foldl_cons, h1, List.foldl_cons, h2, List.foldl_nil]
  show (let st := (paragraphsOf c9joined).foldl (processParagraph MAX_CHUNK_TOKENS) ⟨[], []⟩
        if st.current = [] then st.chunks else st.chunks ++ [jsTrim st.current]) = [c9joined]
  rw [show MAX_CHUNK_TOKENS = 15000 from rfl, hfold]
  show (if c9joined = [] then [] else [] ++ [jsTrim c9joined]) = [c9joined]
  rw [if_neg hne, htrim]
  rfl

/-- C9 (counterexample): for the single oversized paragraph `c9text` of two
sentences (the second starting with spaces), the chunker yields two chunks;
joining them with the chunker's blank-line separator and re-splitting
yields a single merged chunk, because trimming shortened the text below the
flush threshold and the rejoined text now splits at the paragraph level —
so join-then-resplit does not reproduce the chunk sequence. -/
theorem c9_counterexample :
    splitIntoChunks MAX_CHUNK_TOKENS
        (joinBlankLine (splitIntoChunks MAX_CHUNK_TOKENS c9text)) ≠
      splitIntoChunks MAX_CHUNK_TOKENS c9text := by
  rw [splitIntoChunks_c9text, joinBlankLine_pair, ← c9joined, splitIntoChunks_c9joined]
  intro h
  have hlen := congrArg List.length h
  simp at hlen

/-- C9 (amended): join-then-resplit is not a fixed point in general
(`c9_counterexample`); what does hold is that the chunker is a fixed point
on a single already-produced chunk that contains no paragraph separator: a
non-empty trimmed text that is its own single paragraph and fits the
ceiling re-splits to exactly itself. -/
theorem c9_single_chunk_fixed_point (N : Nat) (c : List Char)
    (hpar : paragraphsOf c = [c]) (htrim : jsTrim c = c) (hne : c ≠ [])
    (hest : estimateTokens c ≤ N) :
    splitIntoChunks N c = [c] := by
  have hno : ¬ estimateTokens c > N := by omega
  have h1 : processParagraph N ⟨[], []⟩ c = ⟨[], c⟩ := by
    simp only [processParagraph]
    rw [if_neg hno, if_neg (fun h => h.2 rfl)]
    simp
  simp only [splitIntoChunks, hpar, List.foldl_cons, List.foldl_nil, h1]
  rw [if_neg hne, htrim]
  simp

/-- C9 (witness for the amended fixed point) at a concrete separator-free
chunk. -/
theorem c9_single_chunk_fixed_point_witness :
    splitIntoChunks 1 (chars "ab") = [chars "ab"] :=
  c9_single_chunk_fixed_point 1 (chars "ab") (by decide) (by decide) (by decide) (by decide)

/-!
## Retry controller: `getSummaryForChunk` (route.ts lines 107-147)

The external completion call of each attempt is an oracle
`op : Nat → Except CallError (List Char)` giving that attempt's outcome.
The loop is embedded together with a trace of its observable steps (calls
and the three distinct delay sites of the source), so the retry policy
claims can be stated about the trace.
-/

/-- The error a failed completion call throws, as the retry loop sees it
(the source only ever inspects `error.message`). -/
structure CallError where
  message : List Char
deriving Repr, DecidableEq

/-- JavaScript `String.prototype.includes`. -/
def strIncludes (l pat : List Char) : Bool :=
  l.tails.any (fun t => pat.isPrefixOf t)

/-- `error.message.includes('TPM')` (route.ts lines 138 and 262): the
source's only rate-limit classification. -/
def isTPMError (e : CallError) : Bool :=
  strIncludes e.message (chars "TPM")

/-- One observable step of the retry loop: the attempt's completion call,
the inter-call pacing delay (line 112), the rate-limit cool-down
(line 139), or the exponential backoff delay (line 143). -/
inductive RetryEv
  | call (attempt : Nat)
  | pacing (ms : Nat)
  | cooldown (ms : Nat)
  | backoff (ms : Nat)
deriving Repr, DecidableEq

/-- `if (chunkIndex > 0) await delay(3000)` — run at the top of every
attempt (route.ts lines 110-113). -/
def paceEvs (chunkIndex : Nat) : List RetryEv :=
  if chunkIndex > 0 then [RetryEv.pacing 3000] else []

/-- The `for (attempt = 0; attempt < retries; attempt++)` loop of
`getSummaryForChunk`, recursing on the remaining attempts
(`attempt = retries - rem`).  Exhausting the loop returns `''`
(route.ts line 146).  In the catch block a TPM error waits the 10 s
cool-down and then also falls through to the `2^attempt * 1s` backoff
delay; a non-TPM error on the last attempt is rethrown; any other error
waits only the backoff delay. -/
def retryLoop (op : Nat → Except CallError (List Char)) (chunkIndex retries : Nat) :
    Nat → List RetryEv × Except CallError (List Char)
  | 0 => ([], Except.ok [])
  | rem + 1 =>
    let attempt := retries - (rem + 1)
    let pre := paceEvs chunkIndex ++ [RetryEv.call attempt]
    match op attempt with
    | Except.ok s => (pre, Except.ok s)
    | Except.error e =>
      if isTPMError e then
        let r := retryLoop op chunkIndex retries rem
        (pre ++ RetryEv.cooldown 10000 :: RetryEv.backoff (2 ^ attempt * 1000) :: r.1, r.2)
      else if attempt = retries - 1 then (pre, Except.error e)
      else
        let r := retryLoop op chunkIndex retries rem
        (pre ++ RetryEv.backoff (2 ^ attempt * 1000) :: r.1, r.2)

/-- `getSummaryForChunk(chunk, chunkIndex, totalChunks, retries)`: the
chunk text and total count only feed the prompt (inside `op`); the loop
behaviour depends on `chunkIndex` and `retries` (default 3 at call sites).
Returns the trace of observable steps and the outcome. -/
def getSummaryForChunk (op : Nat → Except CallError (List Char))
    (chunkIndex retries : Nat) : List RetryEv × Except CallError (List Char) :=
  retryLoop op chunkIndex retries retries

/-- Number of completion-call attempts recorded in a trace. -/
def numAttempts (tr : List RetryEv) : Nat :=
  tr.countP fun ev =>
    match ev with
    | RetryEv.call _ => true
    | _ => false

/-- Delays attributable to the retry mechanism itself: the cool-down and
backoff sites (the pacing delay runs regardless of success). -/
def isRetryDelay : RetryEv → Bool
  | RetryEv.cooldown _ => true
  | RetryEv.backoff _ => true
  | _ => false

deriving instance DecidableEq for Except

theorem filter_isRetryDelay_pre (cI a : Nat) :
    (paceEvs cI ++ [RetryEv.call a]).filter isRetryDelay = [] := by
  by_cases h : cI > 0 <;> simp [paceEvs, h, isRetryDelay]

theorem numAttempts_pre (cI a : Nat) :
    numAttempts (paceEvs cI ++ [RetryEv.call a]) = 1 := by
  by_cases h : cI > 0 <;> simp [paceEvs, h, numAttempts]

theorem numAttempts_append (l1 l2 : List RetryEv) :
    numAttempts (l1 ++ l2) = numAttempts l1 + numAttempts l2 := by
  simp [numAttempts, List.countP_append]

theorem numAttempts_backoff_cons (ms : Nat) (l : List RetryEv) :
    numAttempts (RetryEv.backoff ms :: l) = numAttempts l := by
  simp [numAttempts, List.countP_cons]

theorem retryLoop_error_of_all_fail (op : Nat → Except CallError (List Char))
    (cI N : Nat) (e : CallError)
    (htpm : isTPMError e = false) (hlast : op (N - 1) = Except.error e) :
    ∀ rem, 1 ≤ rem → rem ≤ N →
      (∀ k, N - rem ≤ k → k < N - 1 → ∃ e', op k = Except.error e') →
      (retryLoop op cI N rem).2 = Except.error e := by
  intro rem
  induction rem with
  | zero => omega
  | succ r ih =>
    intro _ hle hfail
    cases r with
    | zero =>
      have hattempt : N - (0 + 1) = N - 1 := rfl
      simp only [retryLoop, hattempt, hlast, htpm, Bool.false_eq_true, if_false, if_pos rfl]
      simp
    | succ r' =>
      have hlt : N - (r' + 1 + 1) < N - 1 := by omega
      obtain ⟨e', he'⟩ := hfail (N - (r' + 1 + 1)) (le_refl _) hlt
      have hne : ¬ (N - (r' + 1 + 1) = N - 1) := by omega
      have hrec := ih (by omega) (by omega)
        (fun k hk1 hk2 => hfail k (by omega) hk2)
      simp only [retryLoop, he']
      by_cases htpm' : isTPMError e'
      · simp only [htpm', if_true]
        exact hrec
      · simp only [htpm', Bool.false_eq_true, if_false, if_neg hne]
        exact hrec

/-- C2 (counterexample): an operation that fails every attempt with a
rate-limited (`TPM`) error.  After the third failure the catch block's
`else if (attempt === retries - 1) throw` is skipped (the TPM branch comes
first), the loop exits, and the function returns `''` — a success value —
instead of propagating the last failure. -/
theorem c2_counterexample :
    getSummaryForChunk (fun _ => Except.error ⟨chars "TPM"⟩) 0 3 =
      ([RetryEv.call 0, RetryEv.cooldown 10000, RetryEv.backoff 1000,
        RetryEv.call 1, RetryEv.cooldown 10000, RetryEv.backoff 2000,
        RetryEv.call 2, RetryEv.cooldown 10000, RetryEv.backoff 4000],
        Except.ok []) := by
  decide

/-- C2 (amended): exhausting all `maxAttempts` attempts propagates the last
failure only when that last failure is not rate-limited; an all-failing run
whose final error is a `TPM` error instead returns the empty string
(`c2_counterexample`). -/
theorem c2_exhaustion_propagates_last_failure
    (op : Nat → Except CallError (List Char)) (chunkIndex N : Nat) (e : CallError)
    (hN : 1 ≤ N)
    (hfail : ∀ k, k < N - 1 → ∃ e', op k = Except.error e')
    (hlast : op (N - 1) = Except.error e)
    (htpm : isTPMError e = false) :
    (getSummaryForChunk op chunkIndex N).2 = Except.error e :=
  retryLoop_error_of_all_fail op chunkIndex N e htpm hlast N hN (le_refl N)
    (fun k _ hk2 => hfail k hk2)

/-- C2 (witness): two transient failures with `maxAttempts = 2` propagate
the second failure. -/
theorem c2_exhaustion_propagates_last_failure_witness :
    (getSummaryForChunk (fun _ => Except.error ⟨chars "socket hang up"⟩) 0 2).2 =
      Except.error ⟨chars "socket hang up"⟩ :=
  c2_exhaustion_propagates_last_failure (fun _ => Except.error ⟨chars "socket hang up"⟩)
    0 2 ⟨chars "socket hang up"⟩ (by decide)
    (fun _ _ => ⟨⟨chars "socket hang up"⟩, rfl⟩) rfl (by decide)

/-- C4 (counterexample): an operation that always fails with a
non-rate-limited error of the kind the spec classifies as Fatal
(`"Invalid request"`).  The loop makes all 3 attempts, with exponential
backoff delays of 1 s and 2 s between them, before propagating — not
exactly 1 attempt with no delay. -/
theorem c4_counterexample :
    getSummaryForChunk (fun _ => Except.error ⟨chars "Invalid request"⟩) 0 3 =
      ([RetryEv.call 0, RetryEv.backoff 1000, RetryEv.call 1, RetryEv.backoff 2000,
        RetryEv.call 2], Except.error ⟨chars "Invalid request"⟩) ∧
      numAttempts (getSummaryForChunk (fun _ => Except.error ⟨chars "Invalid request"⟩) 0 3).1
        = 3 := by
  constructor
  · decide
  · decide

theorem retryLoop_step_nonTPM (op : Nat → Except CallError (List Char))
    (cI N rem : Nat) (e : CallError)
    (he : op (N - (rem + 1)) = Except.error e)
    (htpm : isTPMError e = false) (hne : ¬ (N - (rem + 1) = N - 1)) :
    retryLoop op cI N (rem + 1) =
      ((paceEvs cI ++ [RetryEv.call (N - (rem + 1))]) ++
         RetryEv.backoff (2 ^ (N - (rem + 1)) * 1000) :: (retryLoop op cI N rem).1,
       (retryLoop op cI N rem).2) := by
  conv_lhs => rw [retryLoop]
  simp only [he, htpm, Bool.false_eq_true, if_false, if_neg hne]

theorem retryLoop_step_TPM (op : Nat → Except CallError (List Char))
    (cI N rem : Nat) (e : CallError)
    (he : op (N - (rem + 1)) = Except.error e)
    (htpm : isTPMError e = true) :
    retryLoop op cI N (rem + 1) =
      ((paceEvs cI ++ [RetryEv.call (N - (rem + 1))]) ++
         RetryEv.cooldown 10000 ::
           RetryEv.backoff (2 ^ (N - (rem + 1)) * 1000) :: (retryLoop op cI N rem).1,
       (retryLoop op cI N rem).2) := by
  conv_lhs => rw [retryLoop]
  simp only [he, htpm, if_true]

theorem retryLoop_step_ok (op : Nat → Except CallError (List Char))
    (cI N rem : Nat) (s : List Char)
    (hs : op (N - (rem + 1)) = Except.ok s) :
    retryLoop op cI N (rem + 1) =
      (paceEvs cI ++ [RetryEv.call (N - (rem + 1))], Except.ok s) := by
  conv_lhs => rw [retryLoop]
  simp only [hs]

theorem retryLoop_step_last_error (op : Nat → Except CallError (List Char))
    (cI N rem : Nat) (e : CallError)
    (he : op (N - (rem + 1)) = Except.error e)
    (htpm : isTPMError e = false) (hlast : N - (rem + 1) = N - 1) :
    retryLoop op cI N (rem + 1) =
      (paceEvs cI ++ [RetryEv.call (N - (rem + 1))], Except.error e) := by
  conv_lhs => rw [retryLoop]
  simp only [he, htpm, Bool.false_eq_true, if_false, if_pos hlast]

theorem retryLoop_const_error_attempts (e : CallError) (cI N : Nat)
    (htpm : isTPMError e = false) :
    ∀ rem, 1 ≤ rem → rem ≤ N →
      numAttempts (retryLoop (fun _ => Except.error e) cI N rem).1 = rem := by
  intro rem
  induction rem with
  | zero => omega
  | succ r ih =>
    intro _ hle
    cases r with
    | zero =>
      rw [retryLoop_step_last_error _ _ _ _ e rfl htpm rfl]
      exact numAttempts_pre cI (N - 1)
    | succ r' =>
      have hne : ¬ (N - (r' + 1 + 1) = N - 1) := by omega
      rw [retryLoop_step_nonTPM _ _ _ _ e rfl htpm hne, numAttempts_append,
        numAttempts_pre, numAttempts_backoff_cons, ih (by omega) (by omega)]
      omega

/-- C4 (amended): the code has no Fatal classification at all — every
non-rate-limited failure is retried with exponential backoff exactly like a
Transient one.  An operation failing persistently with a Fatal-class error
is attempted all `maxAttempts` times and the failure propagates only after
the final attempt, not immediately after the first. -/
theorem c4_fatal_error_is_retried (e : CallError) (chunkIndex N : Nat)
    (hN : 1 ≤ N) (htpm : isTPMError e = false) :
    (getSummaryForChunk (fun _ => Except.error e) chunkIndex N).2 = Except.error e ∧
      numAttempts (getSummaryForChunk (fun _ => Except.error e) chunkIndex N).1 = N :=
  ⟨retryLoop_error_of_all_fail (fun _ => Except.error e) chunkIndex N e htpm rfl N hN
      (le_refl N) (fun _ _ _ => ⟨e, rfl⟩),
    retryLoop_const_error_attempts e chunkIndex N htpm N hN (le_refl N)⟩

/-- C4 (witness): a persistently failing auth-style error with
`maxAttempts = 3` is attempted 3 times. -/
theorem c4_fatal_error_is_retried_witness :
    (getSummaryForChunk (fun _ => Except.error ⟨chars "401 Unauthorized"⟩) 1 3).2 =
        Except.error ⟨chars "401 Unauthorized"⟩ ∧
      numAttempts (getSummaryForChunk (fun _ => Except.error ⟨chars "401 Unauthorized"⟩) 1 3).1
        = 3 :=
  c4_fatal_error_is_retried ⟨chars "401 Unauthorized"⟩ 1 3 (by decide) (by decide)

/-- C5 (counterexample): an operation that fails once rate-limited then
succeeds.  Between the failed attempt (`call 0`) and the next attempt
(`call 1`) the loop waits the 10 s cool-down AND the `2^0 * 1s` exponential
backoff — the claim's predicted trace with only the cool-down between the
attempts is not what the code produces. -/
theorem c5_counterexample :
    getSummaryForChunk
        (fun k => if k = 0 then Except.error ⟨chars "429 TPM limit"⟩
                  else Except.ok (chars "summary")) 0 3 =
      ([RetryEv.call 0, RetryEv.cooldown 10000, RetryEv.backoff 1000, RetryEv.call 1],
        Except.ok (chars "summary")) ∧
      (getSummaryForChunk
        (fun k => if k = 0 then Except.error ⟨chars "429 TPM limit"⟩
                  else Except.ok (chars "summary")) 0 3).1 ≠
        [RetryEv.call 0, RetryEv.cooldown 10000, RetryEv.call 1] := by
  constructor
  · decide
  · decide

/-- C5 (amended): after a rate-limited failure the controller waits the
10 s cool-down plus the `2^attempt * 1s` exponential backoff (and, when
`chunkIndex > 0`, the 3 s pacing delay precedes every attempt) before the
next attempt — not the cool-down alone. -/
theorem c5_ratelimit_cooldown_plus_backoff
    (op : Nat → Except CallError (List Char)) (chunkIndex N : Nat)
    (s : List Char) (e : CallError) (hN : 2 ≤ N)
    (h0 : op 0 = Except.error e) (htpm : isTPMError e = true)
    (h1 : op 1 = Except.ok s) :
    getSummaryForChunk op chunkIndex N =
      (paceEvs chunkIndex ++
        RetryEv.call 0 :: RetryEv.cooldown 10000 :: RetryEv.backoff 1000 ::
          (paceEvs chunkIndex ++ [RetryEv.call 1]), Except.ok s) := by
  obtain ⟨M, rfl⟩ : ∃ M, N = M + 2 := ⟨N - 2, by omega⟩
  have e1 : M + 2 - (M + 1 + 1) = 0 := by omega
  have e2 : M + 2 - (M + 1) = 1 := by omega
  show retryLoop op chunkIndex (M + 2) (M + 1 + 1) = _
  simp only [retryLoop, e1, e2, h0, h1, htpm, if_true]
  simp [List.append_assoc]

/-- C5 (witness): one rate-limited failure then success on a non-first
chunk (`chunkIndex = 1`), showing the pacing, cool-down and backoff delays
together. -/
theorem c5_ratelimit_cooldown_plus_backoff_witness :
    getSummaryForChunk
        (fun k => if k = 0 then Except.error ⟨chars "TPM exceeded"⟩
                  else Except.ok (chars "ok")) 1 3 =
      (paceEvs 1 ++
        RetryEv.call 0 :: RetryEv.cooldown 10000 :: RetryEv.backoff 1000 ::
          (paceEvs 1 ++ [RetryEv.call 1]), Except.ok (chars "ok")) :=
  c5_ratelimit_cooldown_plus_backoff
    (fun k => if k = 0 then Except.error ⟨chars "TPM exceeded"⟩ else Except.ok (chars "ok"))
    1 3 (chars "ok") ⟨chars "TPM exceeded"⟩ (by decide) rfl (by decide) rfl

theorem filter_isRetryDelay_backoff_cons (ms : Nat) (l : List RetryEv) :
    (RetryEv.backoff ms :: l).filter isRetryDelay =
      RetryEv.backoff ms :: l.filter isRetryDelay := by
  simp [isRetryDelay]

theorem retryLoop_transient_then_ok (op : Nat → Except CallError (List Char))
    (cI N : Nat) (s : List Char) (hsucc : op (N - 1) = Except.ok s) :
    ∀ rem, 1 ≤ rem → rem ≤ N →
      (∀ k, N - rem ≤ k → k < N - 1 → ∃ e, op k = Except.error e ∧ isTPMError e = false) →
      (retryLoop op cI N rem).2 = Except.ok s ∧
        (retryLoop op cI N rem).1.filter isRetryDelay =
          (List.range' (N - rem) (rem - 1)).map (fun k => RetryEv.backoff (2 ^ k * 1000)) := by
  intro rem
  induction rem with
  | zero => omega
  | succ r ih =>
    intro _ hle hfail
    cases r with
    | zero =>
      rw [retryLoop_step_ok _ _ _ _ s hsucc]
      exact ⟨rfl, by rw [filter_isRetryDelay_pre]; rfl⟩
    | succ r' =>
      have hlt : N - (r' + 1 + 1) < N - 1 := by omega
      obtain ⟨e, he, htpm⟩ := hfail (N - (r' + 1 + 1)) (le_refl _) hlt
      have hne : ¬ (N - (r' + 1 + 1) = N - 1) := by omega
      rw [retryLoop_step_nonTPM _ _ _ _ e he htpm hne]
      obtain ⟨ih1, ih2⟩ := ih (by omega) (by omega)
        (fun k hk1 hk2 => hfail k (by omega) hk2)
      refine ⟨ih1, ?_⟩
      rw [List.filter_append, filter_isRetryDelay_pre, List.nil_append,
        filter_isRetryDelay_backoff_cons, ih2]
      have hr : (List.range' (N - (r' + 1 + 1)) (r' + 1 + 1 - 1)).map
          (fun k => RetryEv.backoff (2 ^ k * 1000)) =
          RetryEv.backoff (2 ^ (N - (r' + 1 + 1)) * 1000) ::
            (List.range' (N - (r' + 1)) (r' + 1 - 1)).map
              (fun k => RetryEv.backoff (2 ^ k * 1000)) := by
        have h1 : r' + 1 + 1 - 1 = (r' + 1 - 1) + 1 := by omega
        have h2 : N - (r' + 1 + 1) + 1 = N - (r' + 1) := by omega
        rw [h1, List.range'_succ, h2, List.map_cons]
      rw [hr]

/-- C6 (confirmed): an operation that fails `N - 1` times with transient
(non-rate-limited) errors and succeeds on attempt `N`, run with
`maxAttempts = N`, returns the success value, and the delays attributable
to the retry mechanism are exactly the exponential backoffs
`2^0*1s, 2^1*1s, ..., 2^(N-2)*1s`, in that order, with no cool-down among
them.  (The per-attempt 3 s pacing delay for `chunkIndex > 0` is a pacing
control run regardless of success, not a retry delay.) -/
theorem c6_transient_backoff_schedule (op : Nat → Except CallError (List Char))
    (chunkIndex N : Nat) (s : List Char) (hN : 1 ≤ N)
    (hfail : ∀ k, k < N - 1 → ∃ e, op k = Except.error e ∧ isTPMError e = false)
    (hsucc : op (N - 1) = Except.ok s) :
    (getSummaryForChunk op chunkIndex N).2 = Except.ok s ∧
      (getSummaryForChunk op chunkIndex N).1.filter isRetryDelay =
        (List.range (N - 1)).map (fun k => RetryEv.backoff (2 ^ k * 1000)) := by
  obtain ⟨h1, h2⟩ := retryLoop_transient_then_ok op chunkIndex N s hsucc N hN (le_refl N)
    (fun k _ hk2 => hfail k hk2)
  simp only [getSummaryForChunk]
  refine ⟨h1, ?_⟩
  rw [h2, Nat.sub_self, List.range_eq_range']

/-- C6 (witness): two transient failures then success with
`maxAttempts = 3` — backoff delays 1 s then 2 s, success returned. -/
theorem c6_transient_backoff_schedule_witness :
    (getSummaryForChunk
        (fun k => if k < 2 then Except.error ⟨chars "ECONNRESET"⟩
                  else Except.ok (chars "done")) 0 3).2 = Except.ok (chars "done") ∧
      (getSummaryForChunk
        (fun k => if k < 2 then Except.error ⟨chars "ECONNRESET"⟩
                  else Except.ok (chars "done")) 0 3).1.filter isRetryDelay =
        (List.range (3 - 1)).map (fun k => RetryEv.backoff (2 ^ k * 1000)) :=
  c6_transient_backoff_schedule
    (fun k => if k < 2 then Except.error ⟨chars "ECONNRESET"⟩ else Except.ok (chars "done"))
    0 3 (chars "done") (by decide)
    (fun k hk => by
      refine ⟨⟨chars "ECONNRESET"⟩, ?_, by decide⟩
      have hk2 : k < 2 := by omega
      simp [hk2])
    (by decide)

/-!
## The POST handler pipeline (route.ts lines 157-452)

The handler is embedded as a deterministic function of the request input
and an oracle (`AnalyzeEnv`) supplying the outcome of every external call
(session check, key check, validation call, per-chunk summarization calls,
condensation calls, final analysis call).  Database persistence after the
`complete` event is swallowed by the source (inner try/catch, no events),
so it needs no oracle.  The outer chunk loop retries a failed chunk
indefinitely (`i--`), so the loop carries fuel; a run that exhausts fuel is
marked `diverged` (a non-terminating request) and excluded from claims
about completed runs.
-/

/-- The validated analysis shape (`keyInsights`/`potentialIssues`/
`recommendations`, each an array of strings). -/
structure Analysis where
  keyInsights : List (List Char)
  potentialIssues : List (List Char)
  recommendations : List (List Char)
deriving Repr, DecidableEq

/-- `StreamMessage` (route.ts lines 6-16), the newline-delimited JSON
records written to the stream.  `progress` carries the fraction
`done / total` (the source serialises `(done / total) * 100` as a JS
float). -/
inductive StreamMessage
  | status (message : List Char)
  | progress (message : List Char) (done total : Nat)
  | complete (summary : List Char) (analysis : Analysis)
  | error (message : List Char)
  | ping
deriving Repr, DecidableEq

/-- `FileContent` (route.ts lines 18-22). -/
inductive FType
  | pdf
  | text
deriving Repr, DecidableEq

structure FileContent where
  ftype : FType
  content : List Char
  name : List Char
deriving Repr, DecidableEq

/-- Outcome of the final analysis call once it returns: a null content
(throws `Failed to generate analysis`), an unparsable/invalidly-shaped
JSON (both rethrown as `Failed to parse analysis response`), or a
validated `Analysis`. -/
inductive AnalysisOutcome
  | noContent
  | badParse
  | good (a : Analysis)
deriving Repr, DecidableEq

/-- Oracle for one request: outcomes of the session/key checks and of
every external model call.  `chunkOp i j k` is the outcome of inner
attempt `k` of `getSummaryForChunk` during outer retry `j` of chunk `i`;
`condenseOp i j` is the outcome of condensation call `j` for summary part
`i`. -/
structure AnalyzeEnv where
  authed : Bool
  hasKey : Bool
  validate : Except Unit (Bool × List Char)
  chunkOp : Nat → Nat → Nat → Except CallError (List Char)
  condenseOp : Nat → Nat → Except CallError (List Char)
  analysisResp : Except CallError AnalysisOutcome

/-- Decimal rendering of a number interpolated into a message. -/
def natChars (n : Nat) : List Char := (Nat.repr n).data

/-- `Processed chunk ${i + 1} of ${chunks.length}` (route.ts line 257). -/
def progressMsg (i total : Nat) : List Char :=
  chars "Processed chunk " ++ natChars (i + 1) ++ chars " of " ++ natChars total

/-- The status message written when a chunk's summarization threw
(route.ts lines 262-274). -/
def chunkRetryMsg (i : Nat) (tpm : Bool) : List Char :=
  if tpm then
    chars "Rate limit reached. Waiting before retrying chunk " ++ natChars (i + 1) ++ chars "..."
  else
    chars "Retrying chunk " ++ natChars (i + 1) ++ chars "..."

/-- `Condensing analysis part ${i + 1} of ${summaryChunks.length}...`
(route.ts line 290). -/
def condenseMsg (i total : Nat) : List Char :=
  chars "Condensing analysis part " ++ natChars (i + 1) ++ chars " of " ++ natChars total
    ++ chars "..."

/-- The chunk-summarization loop (route.ts lines 250-277): on success,
push the summary and emit a `progress` event; on a throw from
`getSummaryForChunk`, emit a rate-limit or retry `status` event, wait, and
retry the same index (`i--`).  Returns the accumulated events and, if the
loop finished within fuel, the summaries. -/
def chunkLoop (env : AnalyzeEnv) (chunks : List (List Char)) :
    Nat → Nat → Nat → List (List Char) → List StreamMessage →
      List StreamMessage × Option (List (List Char))
  | 0, _, _, _, evs => (evs, none)
  | fuel + 1, i, j, summaries, evs =>
    if i < chunks.length then
      match (getSummaryForChunk (env.chunkOp i j) i 3).2 with
      | Except.ok s =>
        chunkLoop env chunks fuel (i + 1) 0 (summaries ++ [s])
          (evs ++ [StreamMessage.progress (progressMsg i chunks.length) (i + 1) chunks.length])
      | Except.error e =>
        chunkLoop env chunks fuel i (j + 1) summaries
          (evs ++ [StreamMessage.status (chunkRetryMsg i (isTPMError e))])
    else (evs, some summaries)

/-- The condensation loop (route.ts lines 287-323): a `status` event at
the top of every iteration (also on rate-limit retries, which decrement
`i` and continue); a non-rate-limited error is rethrown (returned).
Returns the events and, within fuel, the condensed pieces or the thrown
error. -/
def condenseLoop (env : AnalyzeEnv) (parts : List (List Char)) :
    Nat → Nat → Nat → List (List Char) → List StreamMessage →
      List StreamMessage × Option (List (List Char) × Option CallError)
  | 0, _, _, _, evs => (evs, none)
  | fuel + 1, i, j, acc, evs =>
    if i < parts.length then
      let evs1 := evs ++ [StreamMessage.status (condenseMsg i parts.length)]
      match env.condenseOp i j with
      | Except.ok s => condenseLoop env parts fuel (i + 1) 0 (acc ++ [s]) evs1
      | Except.error e =>
        if isTPMError e then condenseLoop env parts fuel i (j + 1) acc evs1
        else (evs1, some (acc, some e))
    else (evs, some (acc, none))

/-- The background error handler's message transformation (route.ts lines
415-420): append ` - Please try again.` when the message mentions JSON. -/
def errorMessageWithSuffix (m : List Char) : List Char :=
  m ++ (if strIncludes m (chars "JSON") then chars " - Please try again." else [])

/-- How a request run ended: `early` — an error event written and the
stream closed before the background task (and its ping timer) ever
started; `bg` — the background task ran to its terminal event; `diverged`
— the chunk/condensation loop never finished (fuel exhausted). -/
inductive RunKind
  | early
  | bg
  | diverged
deriving Repr, DecidableEq

/-- Observable result of one request: the run kind, the non-ping events
written in order, the value of `combinedSummary`, the value of
`finalSummary`, and the text actually passed to the final analysis call
(`none` when that call was never reached). -/
structure RunResult where
  kind : RunKind
  events : List StreamMessage
  combined : List Char
  finalSummary : List Char
  analysisInput : Option (List Char)
deriving Repr, DecidableEq

/-- The final analysis call and its validation (route.ts lines 328-411):
emits the single `complete` event — whose `summary` field is
`combinedSummary`, not `finalSummary` (line 368) — or throws, which the
background catch turns into one `error` event. -/
def analysisPhase (env : AnalyzeEnv) (evs : List StreamMessage)
    (combinedSummary finalSummary : List Char) : RunResult :=
  match env.analysisResp with
  | Except.error e =>
    ⟨RunKind.bg, evs ++ [StreamMessage.error (errorMessageWithSuffix e.message)],
      combinedSummary, finalSummary, some finalSummary⟩
  | Except.ok AnalysisOutcome.noContent =>
    ⟨RunKind.bg,
      evs ++ [StreamMessage.error (errorMessageWithSuffix (chars "Failed to generate analysis"))],
      combinedSummary, finalSummary, some finalSummary⟩
  | Except.ok AnalysisOutcome.badParse =>
    ⟨RunKind.bg,
      evs ++ [StreamMessage.error
        (errorMessageWithSuffix (chars "Failed to parse analysis response"))],
      combinedSummary, finalSummary, some finalSummary⟩
  | Except.ok (AnalysisOutcome.good a) =>
    ⟨RunKind.bg, evs ++ [StreamMessage.complete combinedSummary a],
      combinedSummary, finalSummary, some finalSummary⟩

/-- The condensation decision (route.ts lines 282-326): condense when the
combined summary estimates above 60000 tokens, else
`finalSummary = combinedSummary`. -/
def afterChunks (env : AnalyzeEnv) (combinedSummary : List Char)
    (evs2 : List StreamMessage) (fuel : Nat) : RunResult :=
  if estimateTokens combinedSummary > 60000 then
    match condenseLoop env (splitIntoChunks MAX_CHUNK_TOKENS combinedSummary) fuel 0 0 [] [] with
    | (evs3, none) => ⟨RunKind.diverged, evs2 ++ evs3, combinedSummary, combinedSummary, none⟩
    | (evs3, some (_, some e)) =>
      ⟨RunKind.bg, evs2 ++ evs3 ++ [StreamMessage.error (errorMessageWithSuffix e.message)],
        combinedSummary, combinedSummary, none⟩
    | (evs3, some (secondary, none)) =>
      analysisPhase env (evs2 ++ evs3) combinedSummary (joinBlankLine secondary)
  else
    analysisPhase env evs2 combinedSummary combinedSummary

/-- The background task (route.ts lines 242-429): chunk, emit the chunk
count status, summarize each chunk, combine, emit the analysis status,
condense if needed, analyse. -/
def bgRun (env : AnalyzeEnv) (file : FileContent) (fuel : Nat) : RunResult :=
  let chunks := splitIntoChunks MAX_CHUNK_TOKENS file.content
  let evs0 := [StreamMessage.status
    (chars "Processing " ++ natChars chunks.length ++ chars " chunks...")]
  match chunkLoop env chunks fuel 0 0 [] evs0 with
  | (evs1, none) => ⟨RunKind.diverged, evs1, [], [], none⟩
  | (evs1, some summaries) =>
    afterChunks env (joinBlankLine summaries)
      (evs1 ++ [StreamMessage.status (chars "Generating final analysis...")]) fuel

/-- `POST` (route.ts lines 157-452): the pre-stream checks in source
order — session, API key, non-empty content, non-empty PDF text — then
`validateContract`; an invalid document writes one `error` event and
closes before the background task starts; otherwise the background task
runs.  All pre-background failures are `early`: the ping timer has not
started. -/
def postRun (env : AnalyzeEnv) (file : FileContent) (fuel : Nat) : RunResult :=
  if env.authed = false then
    ⟨RunKind.early, [StreamMessage.error (chars "Not authenticated")], [], [], none⟩
  else if env.hasKey = false then
    ⟨RunKind.early, [StreamMessage.error (chars "OpenAI API key is not configured")],
      [], [], none⟩
  else if file.content = [] then
    ⟨RunKind.early, [StreamMessage.error (chars "No content provided")], [], [], none⟩
  else if file.ftype = FType.pdf ∧ jsTrim file.content = [] then
    ⟨RunKind.early, [StreamMessage.error (chars "PDF appears to be empty or unreadable")],
      [], [], none⟩
  else
    match env.validate with
    | Except.error _ =>
      ⟨RunKind.early, [StreamMessage.error (chars "Failed to validate document")], [], [], none⟩
    | Except.ok (isValid, reason) =>
      if isValid = false then
        ⟨RunKind.early,
          [StreamMessage.error (chars "Invalid document: " ++ reason
            ++ chars ". Please upload a contract of sale.")],
          [], [], none⟩
      else bgRun env file fuel

/-- C10 (confirmed): when the pre-pipeline `validateContract` model call
classifies the document as not a contract of sale (`isValid = false`), the
handler — before any chunking or summarization work — writes exactly one
`error` event whose message embeds the classifier's reason, closes the
stream (an `early` run: the background task and its ping timer never
start), and emits no `status`, `progress`, `ping` or `complete` events;
the analysis call is never reached (`analysisInput = none`). -/
theorem c10_invalid_document_single_error (env : AnalyzeEnv) (file : FileContent)
    (fuel : Nat) (reason : List Char)
    (hauth : env.authed = true) (hkey : env.hasKey = true)
    (hcontent : file.content ≠ [])
    (hpdf : ¬ (file.ftype = FType.pdf ∧ jsTrim file.content = []))
    (hval : env.validate = Except.ok (false, reason)) :
    postRun env file fuel =
      ⟨RunKind.early,
        [StreamMessage.error (chars "Invalid document: " ++ reason
          ++ chars ". Please upload a contract of sale.")],
        [], [], none⟩ := by
  rw [postRun, if_neg (by rw [hauth]; exact fun h => Bool.noConfusion h),
    if_neg (by rw [hkey]; exact fun h => Bool.noConfusion h),
    if_neg hcontent, if_neg hpdf, hval]
  simp

/-- C10 (witness): a concrete text file rejected by the classifier. -/
theorem c10_invalid_document_single_error_witness :
    postRun
      ⟨true, true, Except.ok (false, chars "It is a resume"),
        fun _ _ _ => Except.ok [], fun _ _ => Except.ok [],
        Except.ok (AnalysisOutcome.good ⟨[], [], []⟩)⟩
      ⟨FType.text, chars "hello", chars "doc.txt"⟩ 5 =
      ⟨RunKind.early,
        [StreamMessage.error (chars "Invalid document: " ++ chars "It is a resume"
          ++ chars ". Please upload a contract of sale.")],
        [], [], none⟩ :=
  c10_invalid_document_single_error _ _ 5 (chars "It is a resume")
    rfl rfl (by decide) (by decide) rfl

/-!
## C3: the event stream with pings

The ping timer (route.ts lines 174-183) starts at the top of the
background task (line 244) and is cleared in its `finally` block
(line 422) — after the terminal event is written AND after the best-effort
database persistence that follows the `complete` event (lines 373-406),
whose awaits are suspension points where the 5-second interval can fire.
A full stream of a completed request is therefore the background task's
event sequence with `ping` events interleaved at arbitrary points,
including after the terminal event; on the pre-background (`early`) paths
the timer never starts and the stream is exactly the events written. -/

def isTerminal : StreamMessage → Bool
  | StreamMessage.complete _ _ => true
  | StreamMessage.error _ => true
  | _ => false

def isPingEv : StreamMessage → Bool
  | StreamMessage.ping => true
  | _ => false

/-- `PingInsert m s`: `s` is `m` with `ping` events inserted at arbitrary
positions. -/
inductive PingInsert : List StreamMessage → List StreamMessage → Prop
  | nil : PingInsert [] []
  | keep (e : StreamMessage) {m s : List StreamMessage} :
      PingInsert m s → PingInsert (e :: m) (e :: s)
  | ins {m s : List StreamMessage} :
      PingInsert m s → PingInsert m (StreamMessage.ping :: s)

/-- The streams a request can write: on an `early` run exactly the events;
on a completed background run the events with pings interleaved anywhere
while the interval is live (which includes the window between the terminal
event and the `finally` that clears the interval).  Diverged runs are not
modelled. -/
def ValidStream (env : AnalyzeEnv) (file : FileContent) (fuel : Nat)
    (s : List StreamMessage) : Prop :=
  ((postRun env file fuel).kind = RunKind.early ∧ s = (postRun env file fuel).events) ∨
  ((postRun env file fuel).kind = RunKind.bg ∧ PingInsert (postRun env file fuel).events s)

theorem pingInsert_filter {m s : List StreamMessage} (h : PingInsert m s) :
    s.filter (fun ev => !isPingEv ev) = m.filter (fun ev => !isPingEv ev) := by
  induction h with
  | nil => rfl
  | keep e _ ih => simp only [List.filter_cons, ih]
  | ins _ ih => simp only [List.filter_cons, isPingEv, Bool.not_true, if_neg]; exact ih

theorem chunkLoop_events_extend (env : AnalyzeEnv) (chunks : List (List Char)) :
    ∀ (fuel i j : Nat) (summaries : List (List Char)) (evs : List StreamMessage),
      ∃ extra, (chunkLoop env chunks fuel i j summaries evs).1 = evs ++ extra ∧
        ∀ ev ∈ extra, isTerminal ev = false ∧ isPingEv ev = false := by
  intro fuel
  induction fuel with
  | zero => intro i j summaries evs; exact ⟨[], by simp [chunkLoop], by simp⟩
  | succ fuel ih =>
    intro i j summaries evs
    by_cases hi : i < chunks.length
    · rcases hop : (getSummaryForChunk (env.chunkOp i j) i 3).2 with e | s
      · obtain ⟨extra, e1, e2⟩ := ih i (j + 1) summaries
          (evs ++ [StreamMessage.status (chunkRetryMsg i (isTPMError e))])
        refine ⟨StreamMessage.status (chunkRetryMsg i (isTPMError e)) :: extra, ?_, ?_⟩
        · simp only [chunkLoop, if_pos hi, hop, e1, List.append_assoc, List.singleton_append]
        · intro ev hev
          rcases List.mem_cons.1 hev with rfl | hev
          · exact ⟨rfl, rfl⟩
          · exact e2 ev hev
      · obtain ⟨extra, e1, e2⟩ := ih (i + 1) 0 (summaries ++ [s])
          (evs ++ [StreamMessage.progress (progressMsg i chunks.length) (i + 1) chunks.length])
        refine ⟨StreamMessage.progress (progressMsg i chunks.length) (i + 1) chunks.length
            :: extra, ?_, ?_⟩
        · simp only [chunkLoop, if_pos hi, hop, e1, List.append_assoc, List.singleton_append]
        · intro ev hev
          rcases List.mem_cons.1 hev with rfl | hev
          · exact ⟨rfl, rfl⟩
          · exact e2 ev hev
    · exact ⟨[], by simp [chunkLoop, if_neg hi], by simp⟩

theorem condenseLoop_events_extend (env : AnalyzeEnv) (parts : List (List Char)) :
    ∀ (fuel i j : Nat) (acc : List (List Char)) (evs : List StreamMessage),
      ∃ extra, (condenseLoop env parts fuel i j acc evs).1 = evs ++ extra ∧
        ∀ ev ∈ extra, isTerminal ev = false ∧ isPingEv ev = false := by
  intro fuel
  induction fuel with
  | zero => intro i j acc evs; exact ⟨[], by simp [condenseLoop], by simp⟩
  | succ fuel ih =>
    intro i j acc evs
    by_cases hi : i < parts.length
    · rcases hop : env.condenseOp i j with e | s
      · by_cases htpm : isTPMError e
        · obtain ⟨extra, e1, e2⟩ := ih i (j + 1) acc
            (evs ++ [StreamMessage.status (condenseMsg i parts.length)])
          refine ⟨StreamMessage.status (condenseMsg i parts.length) :: extra, ?_, ?_⟩
          · simp only [condenseLoop, if_pos hi, hop, htpm, if_true, e1, List.append_assoc,
              List.singleton_append]
          · intro ev hev
            rcases List.mem_cons.1 hev with rfl | hev
            · exact ⟨rfl, rfl⟩
            · exact e2 ev hev
        · refine ⟨[StreamMessage.status (condenseMsg i parts.length)], ?_, ?_⟩
          · simp [condenseLoop, if_pos hi, hop, htpm]
          · intro ev hev
            rcases List.mem_singleton.1 hev with rfl
            exact ⟨rfl, rfl⟩
      · obtain ⟨extra, e1, e2⟩ := ih (i + 1) 0 (acc ++ [s])
          (evs ++ [StreamMessage.status (condenseMsg i parts.length)])
        refine ⟨StreamMessage.status (condenseMsg i parts.length) :: extra, ?_, ?_⟩
        · simp only [condenseLoop, if_pos hi, hop, e1, List.append_assoc,
            List.singleton_append]
        · intro ev hev
          rcases List.mem_cons.1 hev with rfl | hev
          · exact ⟨rfl, rfl⟩
          · exact e2 ev hev
    · exact ⟨[], by simp [condenseLoop, if_neg hi], by simp⟩

theorem analysisPhase_shape (env : AnalyzeEnv) (evs : List StreamMessage)
    (cs fs : List Char) :
    ∃ t, (analysisPhase env evs cs fs).events = evs ++ [t] ∧ isTerminal t = true ∧
      (analysisPhase env evs cs fs).kind = RunKind.bg := by
  rcases h : env.analysisResp with e | o
  · exact ⟨StreamMessage.error (errorMessageWithSuffix e.message),
      by simp [analysisPhase, h], rfl, by simp [analysisPhase, h]⟩
  · rcases o with _ | _ | a
    · exact ⟨StreamMessage.error (errorMessageWithSuffix (chars "Failed to generate analysis")),
        by simp [analysisPhase, h], rfl, by simp [analysisPhase, h]⟩
    · exact ⟨StreamMessage.error
        (errorMessageWithSuffix (chars "Failed to parse analysis response")),
        by simp [analysisPhase, h], rfl, by simp [analysisPhase, h]⟩
    · exact ⟨StreamMessage.complete cs a,
        by simp [analysisPhase, h], rfl, by simp [analysisPhase, h]⟩

theorem afterChunks_shape (env : AnalyzeEnv) (cs : List Char)
    (evs2 : List StreamMessage) (fuel : Nat)
    (hbg : (afterChunks env cs evs2 fuel).kind = RunKind.bg) :
    ∃ E t, (afterChunks env cs evs2 fuel).events = evs2 ++ E ++ [t] ∧ isTerminal t = true ∧
      ∀ ev ∈ E, isTerminal ev = false ∧ isPingEv ev = false := by
  by_cases hest : estimateTokens cs > 60000
  · obtain ⟨extra, e1, e2⟩ := condenseLoop_events_extend env
      (splitIntoChunks MAX_CHUNK_TOKENS cs) fuel 0 0 [] []
    simp only [List.nil_append] at e1
    rcases hcl : condenseLoop env (splitIntoChunks MAX_CHUNK_TOKENS cs) fuel 0 0 [] []
      with ⟨evs3, o⟩
    rw [hcl] at e1
    simp only at e1
    rw [← e1] at e2
    rcases o with _ | ⟨secondary, oe⟩
    · exfalso
      rw [afterChunks, if_pos hest, hcl] at hbg
      simp at hbg
    · rcases oe with _ | e
      · obtain ⟨t, f1, f2, _⟩ := analysisPhase_shape env (evs2 ++ evs3) cs
          (joinBlankLine secondary)
        refine ⟨evs3, t, ?_, f2, e2⟩
        rw [afterChunks, if_pos hest, hcl]
        simp only [f1, List.append_assoc]
      · refine ⟨evs3, StreamMessage.error (errorMessageWithSuffix e.message), ?_, rfl, e2⟩
        rw [afterChunks, if_pos hest, hcl]
  · obtain ⟨t, f1, f2, _⟩ := analysisPhase_shape env evs2 cs cs
    refine ⟨[], t, ?_, f2, by simp⟩
    rw [afterChunks, if_neg hest]
    simp only [f1, List.append_nil]

theorem bgRun_shape (env : AnalyzeEnv) (file : FileContent) (fuel : Nat)
    (hbg : (bgRun env file fuel).kind = RunKind.bg) :
    ∃ E t, (bgRun env file fuel).events = E ++ [t] ∧ isTerminal t = true ∧
      ∀ ev ∈ E, isTerminal ev = false ∧ isPingEv ev = false := by
  obtain ⟨extra, e1, e2⟩ := chunkLoop_events_extend env
    (splitIntoChunks MAX_CHUNK_TOKENS file.content) fuel 0 0 []
    [StreamMessage.status (chars "Processing "
      ++ natChars (splitIntoChunks MAX_CHUNK_TOKENS file.content).length
      ++ chars " chunks...")]
  rcases hcl : chunkLoop env (splitIntoChunks MAX_CHUNK_TOKENS file.content) fuel 0 0 []
      [StreamMessage.status (chars "Processing "
        ++ natChars (splitIntoChunks MAX_CHUNK_TOKENS file.content).length
        ++ chars " chunks...")]
    with ⟨evs1, o⟩
  rw [hcl] at e1
  simp only at e1
  have hred : bgRun env file fuel =
      (match (evs1, o) with
       | (evs1, none) => (⟨RunKind.diverged, evs1, [], [], none⟩ : RunResult)
       | (evs1, some summaries) =>
         afterChunks env (joinBlankLine summaries)
           (evs1 ++ [StreamMessage.status (chars "Generating final analysis...")]) fuel) := by
    rw [bgRun, ← hcl]
  rcases o with _ | summaries
  · exfalso
    rw [hred] at hbg
    simp at hbg
  · simp only at hred
    have hbg' : (afterChunks env (joinBlankLine summaries)
        (evs1 ++ [StreamMessage.status (chars "Generating final analysis...")]) fuel).kind
        = RunKind.bg := by
      rw [hred] at hbg
      exact hbg
    obtain ⟨E, t, f1, f2, f3⟩ := afterChunks_shape env (joinBlankLine summaries)
      (evs1 ++ [StreamMessage.status (chars "Generating final analysis...")]) fuel hbg'
    refine ⟨evs1 ++ [StreamMessage.status (chars "Generating final analysis...")] ++ E, t,
      ?_, f2, ?_⟩
    · rw [hred, f1]
    · intro ev hev
      rcases List.mem_append.1 hev with hev | hev
      · rcases List.mem_append.1 hev with hev | hev
        · rw [e1] at hev
          rcases List.mem_append.1 hev with hev | hev
          · rcases List.mem_singleton.1 hev with rfl
            exact ⟨rfl, rfl⟩
          · exact e2 ev hev
        · rcases List.mem_singleton.1 hev with rfl
          exact ⟨rfl, rfl⟩
      · exact f3 ev hev

theorem postRun_bg_shape (env : AnalyzeEnv) (file : FileContent) (fuel : Nat)
    (hbg : (postRun env file fuel).kind = RunKind.bg) :
    ∃ E t, (postRun env file fuel).events = E ++ [t] ∧ isTerminal t = true ∧
      ∀ ev ∈ E, isTerminal ev = false ∧ isPingEv ev = false := by
  by_cases h1 : env.authed = false
  · rw [postRun, if_pos h1] at hbg
    simp at hbg
  by_cases h2 : env.hasKey = false
  · rw [postRun, if_neg h1, if_pos h2] at hbg
    simp at hbg
  by_cases h3 : file.content = []
  · rw [postRun, if_neg h1, if_neg h2, if_pos h3] at hbg
    simp at hbg
  by_cases h4 : file.ftype = FType.pdf ∧ jsTrim file.content = []
  · rw [postRun, if_neg h1, if_neg h2, if_neg h3, if_pos h4] at hbg
    simp at hbg
  rcases hval : env.validate with u | ⟨isValid, reason⟩
  · rw [postRun, if_neg h1, if_neg h2, if_neg h3, if_neg h4, hval] at hbg
    simp at hbg
  by_cases h5 : isValid = false
  · rw [postRun, if_neg h1, if_neg h2, if_neg h3, if_neg h4, hval] at hbg
    simp [h5] at hbg
  have hred : postRun env file fuel = bgRun env file fuel := by
    rw [postRun, if_neg h1, if_neg h2, if_neg h3, if_neg h4, hval]
    simp [h5]
  rw [hred] at hbg ⊢
  exact bgRun_shape env file fuel hbg

theorem isPingEv_false_of_terminal {t : StreamMessage} (h : isTerminal t = true) :
    isPingEv t = false := by
  cases t <;> simp [isTerminal, isPingEv] at h ⊢

/-- C3 (amended): in every completed background run the non-ping events of
any stream the request can write are exactly the handler's event sequence,
which contains exactly one terminal (`complete`/`error`) event, as its
last element — but `ping` events can follow the terminal event in the
stream, because the interval is cleared only in the `finally` block after
the post-`complete` persistence step (`c3_counterexample`). -/
theorem c3_completed_run_single_terminal (env : AnalyzeEnv) (file : FileContent)
    (fuel : Nat) (s : List StreamMessage)
    (hbg : (postRun env file fuel).kind = RunKind.bg)
    (hs : PingInsert (postRun env file fuel).events s) :
    s.filter (fun ev => !isPingEv ev) = (postRun env file fuel).events ∧
      (postRun env file fuel).events.countP isTerminal = 1 ∧
      ∃ t, (postRun env file fuel).events.getLast? = some t ∧ isTerminal t = true := by
  obtain ⟨E, t, he, ht, hE⟩ := postRun_bg_shape env file fuel hbg
  refine ⟨?_, ?_, t, ?_, ht⟩
  · rw [pingInsert_filter hs]
    refine List.filter_eq_self.mpr ?_
    intro ev hev
    rw [he] at hev
    rcases List.mem_append.1 hev with hev | hev
    · rw [(hE ev hev).2]; rfl
    · rcases List.mem_singleton.1 hev with rfl
      rw [isPingEv_false_of_terminal ht]; rfl
  · rw [he, List.countP_append]
    rw [List.countP_eq_zero.2 fun ev hev => by rw [(hE ev hev).1]; exact Bool.noConfusion]
    simp [List.countP_cons, ht]
  · rw [he]
    exact List.getLast?_concat E

/-- C3 counterexample fixture: a one-chunk run where everything
succeeds. -/
def c3analysis : Analysis := ⟨[chars "a"], [chars "b"], [chars "c"]⟩

def c3env : AnalyzeEnv :=
  ⟨true, true, Except.ok (true, chars "ok"),
    fun _ _ _ => Except.ok (chars "short summary"),
    fun _ _ => Except.ok [],
    Except.ok (AnalysisOutcome.good c3analysis)⟩

def c3file : FileContent := ⟨FType.text, chars "doc", chars "doc.txt"⟩

/-- The background events of the `c3env` run. -/
def c3main : List StreamMessage :=
  [StreamMessage.status (chars "Processing 1 chunks..."),
   StreamMessage.progress (chars "Processed chunk 1 of 1") 1 1,
   StreamMessage.status (chars "Generating final analysis..."),
   StreamMessage.complete (chars "short summary") c3analysis]

/-- C3 (counterexample): the stream that appends one `ping` after the
`complete` event is a possible stream of this completed request — the
interval is still live during the database writes that follow the
`complete` write — and its last event is a `ping`, not the terminal event,
refuting "the terminal event is the last event in the sequence and no
`ping` event appears after it". -/
theorem c3_counterexample :
    ValidStream c3env c3file 5 (c3main ++ [StreamMessage.ping]) ∧
      (c3main ++ [StreamMessage.ping]).getLast? = some StreamMessage.ping ∧
      StreamMessage.complete (chars "short summary") c3analysis ∈ c3main := by
  have hkind : (postRun c3env c3file 5).kind = RunKind.bg := by decide
  have hev : (postRun c3env c3file 5).events = c3main := by decide
  refine ⟨Or.inr ⟨hkind, ?_⟩, by decide, by decide⟩
  rw [hev]
  exact PingInsert.keep _ (PingInsert.keep _ (PingInsert.keep _ (PingInsert.keep _
    (PingInsert.ins PingInsert.nil))))

/-- C3 (witness for the amended claim) at the concrete one-chunk run, with
the ping-free stream. -/
theorem c3_completed_run_single_terminal_witness :
    c3main.filter (fun ev => !isPingEv ev) = (postRun c3env c3file 5).events ∧
      (postRun c3env c3file 5).events.countP isTerminal = 1 ∧
      ∃ t, (postRun c3env c3file 5).events.getLast? = some t ∧ isTerminal t = true := by
  have hbg : (postRun c3env c3file 5).kind = RunKind.bg := by decide
  have hins : PingInsert (postRun c3env c3file 5).events c3main := by
    have hev : (postRun c3env c3file 5).events = c3main := by decide
    rw [hev]
    exact PingInsert.keep _ (PingInsert.keep _ (PingInsert.keep _ (PingInsert.keep _
      PingInsert.nil)))
  exact c3_completed_run_single_terminal c3env c3file 5 c3main hbg hins

theorem not_complete_mem_of_nonterminal {E : List StreamMessage}
    (hE : ∀ ev ∈ E, isTerminal ev = false) (s : List Char) (a : Analysis) :
    StreamMessage.complete s a ∉ E := by
  intro h
  have := hE _ h
  simp [isTerminal] at this

theorem analysisPhase_fields (env : AnalyzeEnv) (evs : List StreamMessage)
    (cs fs : List Char) :
    (analysisPhase env evs cs fs).combined = cs ∧
      (analysisPhase env evs cs fs).finalSummary = fs ∧
      (analysisPhase env evs cs fs).analysisInput = some fs := by
  rcases h : env.analysisResp with e | o
  · simp [analysisPhase, h]
  · rcases o with _ | _ | a <;> simp [analysisPhase, h]

theorem analysisPhase_complete_mem (env : AnalyzeEnv) (evs : List StreamMessage)
    (cs fs s : List Char) (a : Analysis)
    (hevs : ∀ ev ∈ evs, isTerminal ev = false)
    (hmem : StreamMessage.complete s a ∈ (analysisPhase env evs cs fs).events) :
    s = cs := by
  rcases h : env.analysisResp with e | o
  · rw [analysisPhase, h] at hmem
    simp only at hmem
    rcases List.mem_append.1 hmem with hmem | hmem
    · exact absurd hmem (not_complete_mem_of_nonterminal hevs s a)
    · simp at hmem
  · rcases o with _ | _ | a'
    · rw [analysisPhase, h] at hmem
      simp only at hmem
      rcases List.mem_append.1 hmem with hmem | hmem
      · exact absurd hmem (not_complete_mem_of_nonterminal hevs s a)
      · simp at hmem
    · rw [analysisPhase, h] at hmem
      simp only at hmem
      rcases List.mem_append.1 hmem with hmem | hmem
      · exact absurd hmem (not_complete_mem_of_nonterminal hevs s a)
      · simp at hmem
    · rw [analysisPhase, h] at hmem
      simp only at hmem
      rcases List.mem_append.1 hmem with hmem | hmem
      · exact absurd hmem (not_complete_mem_of_nonterminal hevs s a)
      · have heq := List.mem_singleton.1 hmem
        injection heq with h1 h2

theorem afterChunks_complete (env : AnalyzeEnv) (cs : List Char)
    (evs2 : List StreamMessage) (fuel : Nat) (s : List Char) (a : Analysis)
    (hevs2 : ∀ ev ∈ evs2, isTerminal ev = false)
    (hmem : StreamMessage.complete s a ∈ (afterChunks env cs evs2 fuel).events) :
    s = cs ∧ (afterChunks env cs evs2 fuel).combined = cs ∧
      (afterChunks env cs evs2 fuel).analysisInput =
        some (afterChunks env cs evs2 fuel).finalSummary ∧
      (estimateTokens cs ≤ 60000 →
        (afterChunks env cs evs2 fuel).finalSummary = cs) := by
  by_cases hest : estimateTokens cs > 60000
  · obtain ⟨extra, e1, e2⟩ := condenseLoop_events_extend env
      (splitIntoChunks MAX_CHUNK_TOKENS cs) fuel 0 0 [] []
    simp only [List.nil_append] at e1
    rcases hcl : condenseLoop env (splitIntoChunks MAX_CHUNK_TOKENS cs) fuel 0 0 [] []
      with ⟨evs3, o⟩
    rw [hcl] at e1
    simp only at e1
    rw [← e1] at e2
    rcases o with _ | ⟨secondary, oe⟩
    · exfalso
      rw [afterChunks, if_pos hest, hcl] at hmem
      simp only at hmem
      rcases List.mem_append.1 hmem with hmem | hmem
      · exact absurd hmem (not_complete_mem_of_nonterminal hevs2 s a)
      · exact absurd hmem (not_complete_mem_of_nonterminal (fun ev hev => (e2 ev hev).1) s a)
    · rcases oe with _ | e
      · have hred : afterChunks env cs evs2 fuel =
            analysisPhase env (evs2 ++ evs3) cs (joinBlankLine secondary) := by
          rw [afterChunks, if_pos hest, hcl]
        rw [hred] at hmem ⊢
        have hevs23 : ∀ ev ∈ evs2 ++ evs3, isTerminal ev = false := by
          intro ev hev
          rcases List.mem_append.1 hev with hev | hev
          · exact hevs2 ev hev
          · exact (e2 ev hev).1
        obtain ⟨f1, f2, f3⟩ := analysisPhase_fields env (evs2 ++ evs3) cs
          (joinBlankLine secondary)
        refine ⟨analysisPhase_complete_mem env (evs2 ++ evs3) cs (joinBlankLine secondary)
          s a hevs23 hmem, f1, ?_, ?_⟩
        · rw [f3, f2]
        · intro hle
          omega
      · exfalso
        rw [afterChunks, if_pos hest, hcl] at hmem
        simp only at hmem
        rcases List.mem_append.1 hmem with hmem | hmem
        · rcases List.mem_append.1 hmem with hmem | hmem
          · exact absurd hmem (not_complete_mem_of_nonterminal hevs2 s a)
          · exact absurd hmem
              (not_complete_mem_of_nonterminal (fun ev hev => (e2 ev hev).1) s a)
        · simp at hmem
  · have hred : afterChunks env cs evs2 fuel = analysisPhase env evs2 cs cs := by
      rw [afterChunks, if_neg hest]
    rw [hred] at hmem ⊢
    obtain ⟨f1, f2, f3⟩ := analysisPhase_fields env evs2 cs cs
    refine ⟨analysisPhase_complete_mem env evs2 cs cs s a hevs2 hmem, f1, ?_, fun _ => f2⟩
    rw [f3, f2]

theorem bgRun_complete (env : AnalyzeEnv) (file : FileContent) (fuel : Nat)
    (s : List Char) (a : Analysis)
    (hmem : StreamMessage.complete s a ∈ (bgRun env file fuel).events) :
    s = (bgRun env file fuel).combined ∧
      (bgRun env file fuel).analysisInput = some (bgRun env file fuel).finalSummary ∧
      (estimateTokens (bgRun env file fuel).combined ≤ 60000 →
        (bgRun env file fuel).finalSummary = (bgRun env file fuel).combined) := by
  obtain ⟨extra, e1, e2⟩ := chunkLoop_events_extend env
    (splitIntoChunks MAX_CHUNK_TOKENS file.content) fuel 0 0 []
    [StreamMessage.status (chars "Processing "
      ++ natChars (splitIntoChunks MAX_CHUNK_TOKENS file.content).length
      ++ chars " chunks...")]
  rcases hcl : chunkLoop env (splitIntoChunks MAX_CHUNK_TOKENS file.content) fuel 0 0 []
      [StreamMessage.status (chars "Processing "
        ++ natChars (splitIntoChunks MAX_CHUNK_TOKENS file.content).length
        ++ chars " chunks...")]
    with ⟨evs1, o⟩
  rw [hcl] at e1
  simp only at e1
  have hevs1 : ∀ ev ∈ evs1, isTerminal ev = false := by
    intro ev hev
    rw [e1] at hev
    rcases List.mem_append.1 hev with hev | hev
    · rcases List.mem_singleton.1 hev with rfl
      rfl
    · exact (e2 ev hev).1
  have hred : bgRun env file fuel =
      (match (evs1, o) with
       | (evs1, none) => (⟨RunKind.diverged, evs1, [], [], none⟩ : RunResult)
       | (evs1, some summaries) =>
         afterChunks env (joinBlankLine summaries)
           (evs1 ++ [StreamMessage.status (chars "Generating final analysis...")]) fuel) := by
    rw [bgRun, ← hcl]
  rcases o with _ | summaries
  · exfalso
    simp only at hred
    rw [hred] at hmem
    exact absurd hmem (not_complete_mem_of_nonterminal hevs1 s a)
  · simp only at hred
    rw [hred] at hmem ⊢
    have hevs : ∀ ev ∈ evs1 ++ [StreamMessage.status (chars "Generating final analysis...")],
        isTerminal ev = false := by
      intro ev hev
      rcases List.mem_append.1 hev with hev | hev
      · exact hevs1 ev hev
      · rcases List.mem_singleton.1 hev with rfl
        rfl
    obtain ⟨g1, g2, g3, g4⟩ := afterChunks_complete env (joinBlankLine summaries)
      (evs1 ++ [StreamMessage.status (chars "Generating final analysis...")]) fuel s a
      hevs hmem
    refine ⟨?_, g3, ?_⟩
    · rw [g2]; exact g1
    · intro hle
      rw [g2] at hle ⊢
      exact g4 hle

/-- C1 (amended): in every run the single `complete` event's `summary`
field is the raw Combined Summary — route.ts line 368 sends
`combinedSummary`, not `finalSummary` — while the final analysis call
receives the Final Summary (the joined condensed pieces when condensation
was triggered, the Combined Summary itself otherwise).  In a condensing
run the streamed summary is therefore not the Final Summary
(`c1_counterexample`). -/
theorem c1_complete_event_carries_combined_summary (env : AnalyzeEnv)
    (file : FileContent) (fuel : Nat) (s : List Char) (a : Analysis)
    (hmem : StreamMessage.complete s a ∈ (postRun env file fuel).events) :
    s = (postRun env file fuel).combined ∧
      (postRun env file fuel).analysisInput = some (postRun env file fuel).finalSummary ∧
      (estimateTokens (postRun env file fuel).combined ≤ 60000 →
        (postRun env file fuel).finalSummary = (postRun env file fuel).combined) := by
  by_cases h1 : env.authed = false
  · rw [postRun, if_pos h1] at hmem
    simp at hmem
  by_cases h2 : env.hasKey = false
  · rw [postRun, if_neg h1, if_pos h2] at hmem
    simp at hmem
  by_cases h3 : file.content = []
  · rw [postRun, if_neg h1, if_neg h2, if_pos h3] at hmem
    simp at hmem
  by_cases h4 : file.ftype = FType.pdf ∧ jsTrim file.content = []
  · rw [postRun, if_neg h1, if_neg h2, if_neg h3, if_pos h4] at hmem
    simp at hmem
  rcases hval : env.validate with u | ⟨isValid, reason⟩
  · rw [postRun, if_neg h1, if_neg h2, if_neg h3, if_neg h4, hval] at hmem
    simp at hmem
  by_cases h5 : isValid = false
  · rw [postRun, if_neg h1, if_neg h2, if_neg h3, if_neg h4, hval] at hmem
    simp [h5] at hmem
  have hred : postRun env file fuel = bgRun env file fuel := by
    rw [postRun, if_neg h1, if_neg h2, if_neg h3, if_neg h4, hval]
    simp [h5]
  rw [hred] at hmem ⊢
  exact bgRun_complete env file fuel s a hmem

/-- C1 (witness for the amended claim) at a small non-condensing completed
run. -/
theorem c1_complete_event_carries_combined_summary_witness :
    chars "tiny summary" =
        (postRun
          ⟨true, true, Except.ok (true, chars "ok"),
            fun _ _ _ => Except.ok (chars "tiny summary"),
            fun _ _ => Except.ok [],
            Except.ok (AnalysisOutcome.good ⟨[], [], []⟩)⟩
          ⟨FType.text, chars "doc", chars "doc.txt"⟩ 5).combined ∧
      (postRun
          ⟨true, true, Except.ok (true, chars "ok"),
            fun _ _ _ => Except.ok (chars "tiny summary"),
            fun _ _ => Except.ok [],
            Except.ok (AnalysisOutcome.good ⟨[], [], []⟩)⟩
          ⟨FType.text, chars "doc", chars "doc.txt"⟩ 5).analysisInput =
        some (postRun
          ⟨true, true, Except.ok (true, chars "ok"),
            fun _ _ _ => Except.ok (chars "tiny summary"),
            fun _ _ => Except.ok [],
            Except.ok (AnalysisOutcome.good ⟨[], [], []⟩)⟩
          ⟨FType.text, chars "doc", chars "doc.txt"⟩ 5).finalSummary ∧
      (estimateTokens (postRun
          ⟨true, true, Except.ok (true, chars "ok"),
            fun _ _ _ => Except.ok (chars "tiny summary"),
            fun _ _ => Except.ok [],
            Except.ok (AnalysisOutcome.good ⟨[], [], []⟩)⟩
          ⟨FType.text, chars "doc", chars "doc.txt"⟩ 5).combined ≤ 60000 →
        (postRun
          ⟨true, true, Except.ok (true, chars "ok"),
            fun _ _ _ => Except.ok (chars "tiny summary"),
            fun _ _ => Except.ok [],
            Except.ok (AnalysisOutcome.good ⟨[], [], []⟩)⟩
          ⟨FType.text, chars "doc", chars "doc.txt"⟩ 5).finalSummary =
        (postRun
          ⟨true, true, Except.ok (true, chars "ok"),
            fun _ _ _ => Except.ok (chars "tiny summary"),
            fun _ _ => Except.ok [],
            Except.ok (AnalysisOutcome.good ⟨[], [], []⟩)⟩
          ⟨FType.text, chars "doc", chars "doc.txt"⟩ 5).combined) :=
  c1_complete_event_carries_combined_summary _ _ 5 (chars "tiny summary") ⟨[], [], []⟩
    (by decide)

/-- C1 counterexample fixture: a chunk summary of 240004 characters
(60001 estimated tokens), which pushes the combined summary over the
60000-token condensation threshold. -/
def c1big : List Char := List.replicate 240004 'a'

def c1analysisA : Analysis := ⟨[chars "k"], [chars "p"], [chars "r"]⟩

def c1env : AnalyzeEnv :=
  ⟨true, true, Except.ok (true, chars "ok"),
    fun _ _ _ => Except.ok c1big,
    fun _ _ => Except.ok (chars "condensed"),
    Except.ok (AnalysisOutcome.good c1analysisA)⟩

def c1file : FileContent := ⟨FType.text, chars "doc", chars "doc.txt"⟩

theorem c1big_cons : c1big = 'a' :: List.replicate 240003 'a' := by
  rw [c1big, show (240004 : Nat) = 240003 + 1 from rfl, List.replicate_succ]

theorem est_c1big : estimateTokens c1big = 60001 := by
  rw [estimateTokens, c1big, List.length_replicate]

theorem jsTrim_c1big : jsTrim c1big = c1big := by
  refine jsTrim_eq_self c1big ?_ ?_
  · rw [c1big_cons]
    exact dropWhile_isWs_cons _ _ (by decide)
  · rw [c1big, List.reverse_replicate, ← c1big, c1big_cons]
    exact dropWhile_isWs_cons _ _ (by decide)

theorem splitIntoChunks_c1big :
    splitIntoChunks MAX_CHUNK_TOKENS c1big = [c1big] := by
  have hpar : paragraphsOf c1big = [c1big] :=
    paragraphsOf_nlfree c1big fun c hc => by rw [List.eq_of_mem_replicate hc]; decide
  have hsent : sentencesOrSelf c1big = [c1big] := by
    rw [sentencesOrSelf, sentencesOf_nonterm c1big
      (fun c hc => by rw [List.eq_of_mem_replicate hc]; decide)]
  have hover : estimateTokens c1big > 15000 := by rw [est_c1big]; omega
  have hfold : processParagraph 15000 ⟨[], []⟩ c1big = ⟨[], c1big⟩ := by
    simp only [processParagraph]
    rw [if_pos hover, hsent, List.foldl_cons, List.foldl_nil]
    simp only [processSentence]
    rw [if_neg (fun h => h.2 rfl)]
    simp
  have hne : c1big ≠ [] := by
    rw [c1big_cons]
    exact List.cons_ne_nil _ _
  have hfoldall : (paragraphsOf c1big).foldl (processParagraph 15000) ⟨[], []⟩ =
      ⟨[], c1big⟩ := by
    rw [hpar, List.foldl_cons, hfold, List.foldl_nil]
  show (let st := (paragraphsOf c1big).foldl (processParagraph MAX_CHUNK_TOKENS) ⟨[], []⟩
        if st.current = [] then st.chunks else st.chunks ++ [jsTrim st.current]) = [c1big]
  rw [show MAX_CHUNK_TOKENS = 15000 from rfl, hfoldall]
  show (if c1big = [] then [] else [] ++ [jsTrim c1big]) = [c1big]
  rw [if_neg hne, jsTrim_c1big]
  rfl

theorem c1_chunkLoop (evs : List StreamMessage) :
    chunkLoop c1env [chars "doc"] 2 0 0 [] evs =
      (evs ++ [StreamMessage.progress (progressMsg 0 1) 1 1], some [c1big]) := by
  have hop : (getSummaryForChunk (c1env.chunkOp 0 0) 0 3).2 = Except.ok c1big := by
    rw [getSummaryForChunk, retryLoop_step_ok (c1env.chunkOp 0 0) 0 3 2 c1big rfl]
  conv_lhs => rw [chunkLoop]
  rw [if_pos (by decide : (0 : Nat) < ([chars "doc"] : List (List Char)).length)]
  rcases hres : (getSummaryForChunk (c1env.chunkOp 0 0) 0 3).2 with e | s
  · rw [hres] at hop
    exact absurd hop (by simp)
  · rw [hres] at hop
    injection hop with hs
    subst hs
    simp only []
    conv_lhs => rw [chunkLoop]
    rw [if_neg (by decide : ¬ (1 : Nat) < ([chars "doc"] : List (List Char)).length)]
    rfl

theorem c1_condenseLoop :
    condenseLoop c1env [c1big] 2 0 0 [] [] =
      ([StreamMessage.status (condenseMsg 0 1)], some ([chars "condensed"], none)) := by
  conv_lhs => rw [condenseLoop]
  rw [if_pos (by decide : (0 : Nat) < ([c1big] : List (List Char)).length)]
  show condenseLoop c1env [c1big] 1 1 0 [chars "condensed"]
      ([] ++ [StreamMessage.status (condenseMsg 0 ([c1big] : List (List Char)).length)]) = _
  conv_lhs => rw [condenseLoop]
  rw [if_neg (by decide : ¬ (1 : Nat) < ([c1big] : List (List Char)).length)]
  rfl

/-- The pre-condensation events of the `c1env` run. -/
def evsC1 : List StreamMessage :=
  [StreamMessage.status (chars "Processing " ++ natChars 1 ++ chars " chunks..."),
   StreamMessage.progress (progressMsg 0 1) 1 1]

theorem c1_postRun :
    postRun c1env c1file 2 =
      analysisPhase c1env
        ((evsC1 ++ [StreamMessage.status (chars "Generating final analysis...")])
          ++ [StreamMessage.status (condenseMsg 0 1)])
        c1big (chars "condensed") := by
  have hred : postRun c1env c1file 2 = bgRun c1env c1file 2 := by
    rw [postRun, if_neg (by decide), if_neg (by decide), if_neg (by decide),
      if_neg (by decide), show c1env.validate = Except.ok (true, chars "ok") from rfl]
    simp
  rw [hred, bgRun]
  simp only [show splitIntoChunks MAX_CHUNK_TOKENS c1file.content = [chars "doc"] from
    by decide]
  rw [c1_chunkLoop]
  simp only []
  rw [show joinBlankLine [c1big] = c1big from joinBlankLine_single c1big]
  rw [afterChunks, if_pos (by rw [est_c1big]; omega : estimateTokens c1big > 60000),
    splitIntoChunks_c1big, c1_condenseLoop]
  simp only []
  rw [show joinBlankLine [chars "condensed"] = chars "condensed" from
    joinBlankLine_single _]
  rfl

/-- C1 (counterexample): a completed run in which condensation was
triggered (the combined summary estimates to 60001 > 60000 tokens).  The
`complete` event carries the raw Combined Summary `c1big` in its `summary`
field, while the Final Summary — the joined condensed pieces, which is
what the analysis call received — is `"condensed" ≠ c1big`.  This refutes
"the `complete` event carries the Final Summary as its `summary` field
(not the raw combined summary)". -/
theorem c1_counterexample :
    StreamMessage.complete c1big c1analysisA ∈ (postRun c1env c1file 2).events ∧
      estimateTokens (postRun c1env c1file 2).combined > 60000 ∧
      (postRun c1env c1file 2).analysisInput = some (chars "condensed") ∧
      (postRun c1env c1file 2).combined = c1big ∧
      c1big ≠ chars "condensed" := by
  have hresp : c1env.analysisResp = Except.ok (AnalysisOutcome.good c1analysisA) := rfl
  have hev : (postRun c1env c1file 2).events =
      ((evsC1 ++ [StreamMessage.status (chars "Generating final analysis...")])
        ++ [StreamMessage.status (condenseMsg 0 1)])
        ++ [StreamMessage.complete c1big c1analysisA] := by
    rw [c1_postRun, analysisPhase, hresp]
  refine ⟨?_, ?_, ?_, ?_, ?_⟩
  · rw [hev]
    exact List.mem_append.2 (Or.inr (List.mem_singleton.2 rfl))
  · rw [c1_postRun]
    rw [(analysisPhase_fields c1env _ c1big (chars "condensed")).1, est_c1big]
    omega
  · rw [c1_postRun]
    rw [(analysisPhase_fields c1env _ c1big (chars "condensed")).2.2]
  · rw [c1_postRun]
    exact (analysisPhase_fields c1env _ c1big (chars "condensed")).1
  · intro h
    have hlen := congrArg List.length h
    rw [c1big, List.length_replicate] at hlen
    simp [chars] at hlen
